import Mathlib

/-!
# IndexedDB.js: schema reconciliation, readiness gate and request lifecycle

A shallow embedding of `src/indexeddb.js` (the `IndexedDB` wrapper object) and of the
part of the host storage engine that the wrapper drives.

* JavaScript numbers are modelled by `Int` and strings offered as keys by their UTF-16
  code units; a schema object is the list of its own enumerable properties in
  `for ... in` order, and a property read `structure[name]` also sees the members
  every object literal inherits from `Object.prototype`.
* The host engine is modelled by its documented behaviour: the live list
  `objectStoreNames` sorted by UTF-16 code units, `NotFoundError` for a missing store
  or index, `ConstraintError` for a duplicate one, `DataError` for a value that is no
  valid key, for a range whose lower bound is above its upper bound and for a record
  from which no key can be had, `TypeError` for a version out of range.  Key paths are
  taken to be well-formed names of properties.
* Every wrapper function returns the connection state together with the engine calls it
  issued, the caller callbacks it invoked synchronously, the request listeners it
  registered and the exception it raised, if any.
-/

namespace IndexedDBjs

/-! ## Host engine: values, keys and key ranges -/

/-- A JavaScript value offered to the engine as a key: a number, a string (its UTF-16
code units), an array of such values, or some other value, which is no key (a boolean,
null, undefined, an object, NaN). -/
inductive Value where
  | num (n : Int)
  | str (units : List Nat)
  | arr (xs : List Value)
  | other

mutual
/-- Equality of values is decidable. -/
def Value.decEq : (a b : Value) → Decidable (a = b)
  | .num a, .num b =>
    if h : a = b then isTrue (by rw [h]) else isFalse (by intro h1; cases h1; exact h rfl)
  | .str a, .str b =>
    if h : a = b then isTrue (by rw [h]) else isFalse (by intro h1; cases h1; exact h rfl)
  | .arr xs, .arr ys =>
    match Value.decEqList xs ys with
    | isTrue h => isTrue (by rw [h])
    | isFalse h => isFalse (by intro h1; cases h1; exact h rfl)
  | .other, .other => isTrue rfl
  | .num _, .str _ => isFalse (by intro h; cases h)
  | .num _, .arr _ => isFalse (by intro h; cases h)
  | .num _, .other => isFalse (by intro h; cases h)
  | .str _, .num _ => isFalse (by intro h; cases h)
  | .str _, .arr _ => isFalse (by intro h; cases h)
  | .str _, .other => isFalse (by intro h; cases h)
  | .arr _, .num _ => isFalse (by intro h; cases h)
  | .arr _, .str _ => isFalse (by intro h; cases h)
  | .arr _, .other => isFalse (by intro h; cases h)
  | .other, .num _ => isFalse (by intro h; cases h)
  | .other, .str _ => isFalse (by intro h; cases h)
  | .other, .arr _ => isFalse (by intro h; cases h)
/-- Equality of lists of values is decidable. -/
def Value.decEqList : (xs ys : List Value) → Decidable (xs = ys)
  | [], [] => isTrue rfl
  | [], _ :: _ => isFalse (by intro h; cases h)
  | _ :: _, [] => isFalse (by intro h; cases h)
  | x :: xs, y :: ys =>
    match Value.decEq x y, Value.decEqList xs ys with
    | isTrue h1, isTrue h2 => isTrue (by rw [h1, h2])
    | isFalse h1, _ => isFalse (by intro h; cases h; exact h1 rfl)
    | _, isFalse h2 => isFalse (by intro h; cases h; exact h2 rfl)
end

instance : DecidableEq Value := Value.decEq

mutual
/-- Whether a value is a valid key: a number, a string, or an array of valid keys. -/
def Value.isKey : Value → Bool
  | .num _ => true
  | .str _ => true
  | .arr xs => Value.allKeys xs
  | .other => false
/-- Whether every value of a list is a valid key. -/
def Value.allKeys : List Value → Bool
  | [] => true
  | x :: xs => Value.isKey x && Value.allKeys xs
end

/-- The UTF-16 code units of a list of characters: one unit for a character of the
basic plane, a surrogate pair for any other. -/
def utf16Units : List Char → List Nat
  | [] => []
  | c :: cs =>
    if c.toNat < 65536 then c.toNat :: utf16Units cs
    else
      (55296 + (c.toNat - 65536) / 1024) :: (56320 + (c.toNat - 65536) % 1024) ::
        utf16Units cs

/-- The UTF-16 code units of a string. -/
def utf16 (s : String) : List Nat := utf16Units s.toList

/-- Comparison of two sequences of code units, unit by unit, a proper initial segment
being below its extensions. -/
def cmpUnits : List Nat → List Nat → Ordering
  | [], [] => .eq
  | [], _ :: _ => .lt
  | _ :: _, [] => .gt
  | x :: xs, y :: ys =>
    match compare x y with
    | .eq => cmpUnits xs ys
    | o => o

mutual
/-- The engine's key comparison: every number is below every string, every string below
every array; numbers by value, strings by code units, arrays element by element with a
proper initial segment below its extensions.  A value that is no key is never compared
by the engine; it is placed below all others here. -/
def Value.cmp : Value → Value → Ordering
  | .num a, .num b => compare a b
  | .num _, .str _ => .lt
  | .num _, .arr _ => .lt
  | .num _, .other => .gt
  | .str _, .num _ => .gt
  | .str a, .str b => cmpUnits a b
  | .str _, .arr _ => .lt
  | .str _, .other => .gt
  | .arr _, .num _ => .gt
  | .arr _, .str _ => .gt
  | .arr xs, .arr ys => Value.cmpList xs ys
  | .arr _, .other => .gt
  | .other, .num _ => .lt
  | .other, .str _ => .lt
  | .other, .arr _ => .lt
  | .other, .other => .eq
/-- Element-wise comparison of two arrays of values. -/
def Value.cmpList : List Value → List Value → Ordering
  | [], [] => .eq
  | [], _ :: _ => .lt
  | _ :: _, [] => .gt
  | x :: xs, y :: ys =>
    match Value.cmp x y with
    | .eq => Value.cmpList xs ys
    | o => o
end

/-- The order of keys: `a ≤ b` when the engine does not compare `a` above `b`. -/
instance : LE Value := ⟨fun a b => Value.cmp a b ≠ Ordering.gt⟩

/-- An exception raised by the engine or by the language. -/
inductive JSError where
  | NotFoundError
  | ConstraintError
  | InvalidStateError
  | InvalidAccessError
  | DataError
  | TypeError
deriving DecidableEq

/-- Equality of outcomes, a result or an exception, is decidable. -/
instance {ε α : Type} [DecidableEq ε] [DecidableEq α] : DecidableEq (Except ε α) :=
  fun a b =>
    match a, b with
    | .ok x, .ok y =>
      if h : x = y then isTrue (by rw [h]) else isFalse (by intro e; cases e; exact h rfl)
    | .error x, .error y =>
      if h : x = y then isTrue (by rw [h]) else isFalse (by intro e; cases e; exact h rfl)
    | .ok _, .error _ => isFalse (by intro e; cases e)
    | .error _, .ok _ => isFalse (by intro e; cases e)

/-- An engine key range (`IDBKeyRange`): optional bounds, each open or closed. -/
structure KeyRange where
  lower : Option Value
  upper : Option Value
  lowerOpen : Bool
  upperOpen : Bool
deriving DecidableEq

/-- The range holding the single key `value`. -/
def KeyRange.exactly (value : Value) : KeyRange := ⟨some value, some value, false, false⟩

/-- The range of the keys not below `lower`. -/
def KeyRange.atLeast (lower : Value) : KeyRange := ⟨some lower, none, false, true⟩

/-- The range of the keys not above `upper`. -/
def KeyRange.atMost (upper : Value) : KeyRange := ⟨none, some upper, true, false⟩

/-- The range of the keys from `lower` to `upper`, both included. -/
def KeyRange.between (lower upper : Value) : KeyRange :=
  ⟨some lower, some upper, false, false⟩

/-- The engine's `IDBKeyRange.only(value)`: `DataError` unless the value is a valid
key. -/
def KeyRange.only (value : Value) : Except JSError KeyRange :=
  if value.isKey then .ok (KeyRange.exactly value) else .error JSError.DataError

/-- The engine's `IDBKeyRange.lowerBound(lower)`, closed: `DataError` unless the bound is
a valid key. -/
def KeyRange.lowerBound (lower : Value) : Except JSError KeyRange :=
  if lower.isKey then .ok (KeyRange.atLeast lower) else .error JSError.DataError

/-- The engine's `IDBKeyRange.upperBound(upper)`, closed: `DataError` unless the bound is
a valid key. -/
def KeyRange.upperBound (upper : Value) : Except JSError KeyRange :=
  if upper.isKey then .ok (KeyRange.atMost upper) else .error JSError.DataError

/-- The engine's `IDBKeyRange.bound(lower, upper)`, closed at both ends: `DataError`
unless both bounds are valid keys and the lower one is not above the upper one. -/
def KeyRange.bound (lower upper : Value) : Except JSError KeyRange :=
  if lower.isKey && upper.isKey then
    if Value.cmp lower upper = Ordering.gt then .error JSError.DataError
    else .ok (KeyRange.between lower upper)
  else .error JSError.DataError

/-- Whether a key lies in a range: not below the lower bound, not above the upper bound,
and different from a bound that is open. -/
def KeyRange.includes (r : KeyRange) (k : Value) : Bool :=
  (match r.lower with
    | none => true
    | some l =>
      match Value.cmp l k with
      | .lt => true
      | .eq => !r.lowerOpen
      | .gt => false) &&
  (match r.upper with
    | none => true
    | some u =>
      match Value.cmp k u with
      | .lt => true
      | .eq => !r.upperOpen
      | .gt => false)

/-- The key range `find` computes from its search term (source lines 510-530):
a two-element array selects a range with `0` standing for a missing bound, anything
else an exact match; the engine's constructors raise when they reject their
arguments. -/
def find_keyRange (term : Value) : Except JSError KeyRange :=
  match term with
  | .arr [low, high] =>
    if low = Value.num 0 then KeyRange.upperBound high
    else if high = Value.num 0 then KeyRange.lowerBound low
    else KeyRange.bound low high
  | _ => KeyRange.only term

/-! ## The declared structure -/

/-- A record: an object, given by its properties that matter to the engine. -/
structure Record where
  properties : List (String × Value)
deriving DecidableEq

/-- The `options` of a store: `{keyPath, autoIncrement}`. -/
structure StoreOptions where
  keyPath : Option String
  autoIncrement : Bool
deriving DecidableEq

/-- One entry of `indexes`: `{name, keyPath, options: {unique}}`. -/
structure IndexSpec where
  name : String
  keyPath : String
  unique : Bool
deriving DecidableEq

/-- The `defaultValues` property of a store description: absent, an array of records,
a single record object, or some other defined value (a number, a string, null). -/
inductive DefaultValues where
  | undefined
  | array (values : List Record)
  | object (value : Record)
  | other
deriving DecidableEq

/-- The `indexes` property of a store description: absent, an array of index
descriptions, a single description object, or some other defined value. -/
inductive Indexes where
  | undefined
  | array (indexes : List IndexSpec)
  | object (index : IndexSpec)
  | other
deriving DecidableEq

/-- The description of one store in the structure. -/
structure StoreSchema where
  options : Option StoreOptions
  indexes : Indexes
  defaultValues : DefaultValues
deriving DecidableEq

/-- The structure object: its own enumerable properties, in enumeration order. -/
abbrev Structure := List (String × StoreSchema)

/-- The property names every object literal inherits from `Object.prototype`. -/
def objectPrototypeKeys : List String :=
  ["constructor", "hasOwnProperty", "isPrototypeOf", "propertyIsEnumerable",
   "toLocaleString", "toString", "valueOf", "__proto__",
   "__defineGetter__", "__defineSetter__", "__lookupGetter__", "__lookupSetter__"]

/-- The test `structure[name] !== undefined`: the name is an own property of the
structure object or a member inherited from `Object.prototype`. -/
def hasProperty (s : Structure) (name : String) : Bool :=
  (s.lookup name).isSome || objectPrototypeKeys.contains name

/-- The structure used when the constructor receives none (source lines 48-61). -/
def defaultStructure : Structure :=
  [("defaultStore",
    { options := some ⟨some "id", true⟩,
      indexes := Indexes.object ⟨"id", "id", false⟩,
      defaultValues := DefaultValues.object ⟨[]⟩ })]

/-! ## Host engine: databases, stores and the calls made to them -/

/-- A record as an object store holds it: the key it is filed under and the value. -/
structure StoredRecord where
  key : Value
  value : Record
deriving DecidableEq

/-- An object store of the engine: its name, its options, its indexes, its records in
key order, and the current number of its key generator. -/
structure ObjectStore where
  name : String
  options : Option StoreOptions
  indexes : List IndexSpec
  records : List StoredRecord
  nextKey : Nat
deriving DecidableEq

/-- A database of the engine: its version, its stores in the order of
`objectStoreNames`, and whether it has the legacy `setVersion` method. -/
structure Database where
  version : Nat
  stores : List ObjectStore
  hasSetVersion : Bool
deriving DecidableEq

/-- The two transaction modes the wrapper uses. -/
inductive TransactionMode where
  | READ_ONLY
  | READ_WRITE
deriving DecidableEq

/-- A call issued to the engine. -/
inductive EngineCall where
  | openDatabase (name : String) (version : Nat)
  | setVersion (version : Nat)
  | createObjectStore (name : String) (options : Option StoreOptions)
  | deleteObjectStore (name : String)
  | createIndex (store : String) (index : IndexSpec)
  | put (store : String) (value : Record)
  | transaction (store : String) (mode : TransactionMode)
  | get (store : String) (id : Value)
  | delete (store : String) (id : Value)
  | clear (store : String)
  | index (store : String) (name : String)
  | openCursor (store : String) (index : Option String) (range : KeyRange)
deriving DecidableEq

/-- The live list `db.objectStoreNames`. -/
def objectStoreNames (db : Database) : List String := db.stores.map (fun s => s.name)

/-- Conversion of an indexed read of the name list to a string: a position past the last
one reads `undefined`, which both a property access and the engine turn into the
string "undefined". -/
def toDOMString : Option String → String
  | some s => s
  | none => "undefined"

/-- Insertion of a new store at its place in the store list, which the engine keeps
sorted by the code units of the names. -/
def insertStore (s : ObjectStore) : List ObjectStore → List ObjectStore
  | [] => [s]
  | t :: ts =>
    if cmpUnits (utf16 s.name) (utf16 t.name) = Ordering.gt then t :: insertStore s ts
    else s :: t :: ts

/-- Insertion of a record into the key-ordered records of a store, replacing the record
with the same key. -/
def putRecord (r : StoredRecord) : List StoredRecord → List StoredRecord
  | [] => [r]
  | x :: xs =>
    match Value.cmp r.key x.key with
    | .lt => r :: x :: xs
    | .eq => r :: xs
    | .gt => x :: putRecord r xs

/-- The records a cursor opened on a store with the given range steps through. -/
def cursorRecords (s : ObjectStore) (range : KeyRange) : List StoredRecord :=
  s.records.filter (fun r => range.includes r.key)

/-- The key path of a store, if it has one. -/
def ObjectStore.keyPath (s : ObjectStore) : Option String :=
  match s.options with
  | some o => o.keyPath
  | none => none

/-- Whether a store has a key generator. -/
def ObjectStore.autoIncrement (s : ObjectStore) : Bool :=
  match s.options with
  | some o => o.autoIncrement
  | none => false

/-- The largest number a key generator reaches, `2^53`. -/
def maxGeneratedKey : Nat := 9007199254740992

/-- The key a store's generator supplies: `DataError` when the store has no generator,
`ConstraintError` when the generator is used up. -/
def generatedKey (s : ObjectStore) : Except JSError Value :=
  if s.autoIncrement then
    if s.nextKey > maxGeneratedKey then .error JSError.ConstraintError
    else .ok (Value.num s.nextKey)
  else .error JSError.DataError

/-- The key the engine files a record under when `put` is called with the record alone:
the value of the property the key path names, which has to be a valid key, or else a key
from the generator. -/
def keyFor (s : ObjectStore) (value : Record) : Except JSError Value :=
  match s.keyPath with
  | some path =>
    match value.properties.lookup path with
    | some v => if v.isKey then .ok v else .error JSError.DataError
    | none => generatedKey s
  | none => generatedKey s

/-- The store after a record has been filed under a key: the record is in, and a
generator is moved past a number used as key. -/
def ObjectStore.store (s : ObjectStore) (key : Value) (value : Record) : ObjectStore :=
  { s with
    records := putRecord ⟨key, value⟩ s.records,
    nextKey :=
      match key with
      | .num n =>
        if s.autoIncrement && decide ((s.nextKey : Int) ≤ n) then
          (min n maxGeneratedKey).toNat + 1
        else s.nextKey
      | _ => s.nextKey }

/-- The state of an upgrade transaction: the database as changed so far, the calls
issued so far, and the exception that stopped it, if any. -/
structure Txn where
  db : Database
  calls : List EngineCall
  raised : Option JSError
deriving DecidableEq

/-- Sequencing: nothing runs after an exception. -/
def Txn.andThen (t : Txn) (f : Txn → Txn) : Txn :=
  match t.raised with
  | none => f t
  | some _ => t

/-- The engine's `db.createObjectStore(name, options)`: `ConstraintError` when a store
of that name exists, `InvalidAccessError` when a key generator is asked for together
with an empty key path. -/
def createObjectStore (t : Txn) (name : String) (options : Option StoreOptions) : Txn :=
  if (objectStoreNames t.db).contains name then
    { t with calls := t.calls ++ [EngineCall.createObjectStore name options],
             raised := some JSError.ConstraintError }
  else if options = some ⟨some "", true⟩ then
    { t with calls := t.calls ++ [EngineCall.createObjectStore name options],
             raised := some JSError.InvalidAccessError }
  else
    { t with calls := t.calls ++ [EngineCall.createObjectStore name options],
             db := { t.db with stores := insertStore ⟨name, options, [], [], 1⟩ t.db.stores } }

/-- The engine's `db.deleteObjectStore(name)`. -/
def deleteObjectStore (t : Txn) (name : String) : Txn :=
  if (objectStoreNames t.db).contains name then
    { t with calls := t.calls ++ [EngineCall.deleteObjectStore name],
             db := { t.db with stores := t.db.stores.filter (fun s => s.name ≠ name) } }
  else
    { t with calls := t.calls ++ [EngineCall.deleteObjectStore name],
             raised := some JSError.NotFoundError }

/-- The engine's `objectStore.put(value)` inside the upgrade transaction: the call
raises when no key can be had for the record. -/
def put (t : Txn) (store : String) (value : Record) : Txn :=
  match t.db.stores.find? (fun s => s.name = store) with
  | none =>
    { t with calls := t.calls ++ [EngineCall.put store value],
             raised := some JSError.InvalidStateError }
  | some s =>
    match keyFor s value with
    | .error e =>
      { t with calls := t.calls ++ [EngineCall.put store value], raised := some e }
    | .ok key =>
      { t with calls := t.calls ++ [EngineCall.put store value],
               db := { t.db with stores := t.db.stores.map (fun s =>
                 if s.name = store then s.store key value else s) } }

/-- The live list `objectStore.indexNames` of the store with the given name. -/
def indexNames (db : Database) (store : String) : List String :=
  match db.stores.find? (fun s => s.name = store) with
  | some s => s.indexes.map (fun i => i.name)
  | none => []

/-- The engine's `transaction.objectStore(name)`: it raises when there is no such store. -/
def objectStore (t : Txn) (name : String) : Txn :=
  if (objectStoreNames t.db).contains name then t
  else { t with raised := some JSError.NotFoundError }

/-- The engine's `objectStore.createIndex(name, keyPath, options)`. -/
def createIndex (t : Txn) (store : String) (index : IndexSpec) : Txn :=
  if (indexNames t.db store).contains index.name then
    { t with calls := t.calls ++ [EngineCall.createIndex store index],
             raised := some JSError.ConstraintError }
  else
    { t with calls := t.calls ++ [EngineCall.createIndex store index],
             db := { t.db with stores := t.db.stores.map (fun s =>
               if s.name = store then { s with indexes := s.indexes ++ [index] } else s) } }

/-! ## The reconciliation loops of `dbUpgrade` -/

/-- The loop `for (i = 0; i < l; i++) objectStore.put(values[i])`. -/
def putAll (store : String) : List Record → Txn → Txn
  | [], t => t
  | v :: vs, t => (put t store v).andThen (putAll store vs)

/-- The loop over an array of index descriptions (source lines 197-205): an index is
created unless the store's live `indexNames` already contains its name. -/
def createIndexes (store : String) : List IndexSpec → Txn → Txn
  | [], t => t
  | i :: is, t =>
    (if (indexNames t.db store).contains i.name then t
     else createIndex t store i).andThen (createIndexes store is)

/-- The body of the `for (var storeName in self.structure)` loop (source lines 160-213)
for one property of the structure. -/
def upgradeStore (version : Nat) (storeName : String) (s : StoreSchema) (t : Txn) : Txn :=
  (if !(objectStoreNames t.db).contains storeName then
    (createObjectStore t storeName s.options).andThen fun t =>
      if s.defaultValues ≠ DefaultValues.undefined && version = 1 then
        match s.defaultValues with
        | .array values => putAll storeName values t
        | .object value => put t storeName value
        | _ => t
      else t
   else t).andThen fun t =>
    if s.indexes ≠ Indexes.undefined then
      (objectStore t storeName).andThen fun t =>
        match s.indexes with
        | .array indexes => createIndexes storeName indexes t
        | .object index =>
          if !(indexNames t.db storeName).contains index.name then createIndex t storeName index
          else t
        | _ => t
    else t

/-- The loop `for (var storeName in self.structure)`. -/
def upgradeStores (version : Nat) : Structure → Txn → Txn
  | [], t => t
  | (storeName, s) :: rest, t =>
    (upgradeStore version storeName s t).andThen (upgradeStores version rest)

/-- The deletion loop (source lines 218-226) with `n` iterations left at position `i`:
the name at position `i` of the live name list is read, and its store is deleted when
the structure has no property of that name. -/
def deleteStores (s : Structure) : Nat → Nat → Txn → Txn
  | 0, _, t => t
  | n + 1, i, t =>
    (if hasProperty s (toDOMString ((objectStoreNames t.db)[i]?)) then t
     else deleteObjectStore t (toDOMString ((objectStoreNames t.db)[i]?))).andThen
      (deleteStores s n (i + 1))

/-- The structural part of `dbUpgrade` (source lines 158-226) as one upgrade
transaction on the database of the event. -/
def reconcile (version : Nat) (s : Structure) (db : Database) : Txn :=
  (upgradeStores version s ⟨db, [], none⟩).andThen fun t =>
    deleteStores s (objectStoreNames t.db).length 0 t

/-! ## The connection object -/

/-- A value passed as `this`: nothing, the global object, or some other object. -/
inductive ThisValue where
  | undefined
  | window
  | object (id : Nat)
deriving DecidableEq

/-- A function supplied by the caller; `strict` tells whether it is strict-mode code. -/
structure Handler where
  id : Nat
  strict : Bool
deriving DecidableEq

/-- A notification `{fn, context}` given to the constructor. -/
structure Callback where
  fn : Handler
  context : ThisValue
deriving DecidableEq

/-- An event delivered by the engine, with the database its target gives access to
(`target.result` of an open request, `target.source` of a version request). -/
structure Event where
  id : Nat
  db : Database
deriving DecidableEq

/-- An argument handed to a caller function. -/
inductive JSArg where
  | event (e : Event)
  | error (e : JSError)
deriving DecidableEq

/-- One call `fn.call(thisArg, args...)` of a caller function. -/
structure Invocation where
  fn : Handler
  thisArg : ThisValue
  args : List JSArg
deriving DecidableEq

/-- The `this` the called function observes: sloppy-mode code sees the global object in
place of `undefined`, strict-mode code sees the value as passed. -/
def Invocation.thisBinding (i : Invocation) : ThisValue :=
  if i.fn.strict then i.thisArg
  else
    match i.thisArg with
    | .undefined => ThisValue.window
    | v => v

/-- Which listener of a request a function is attached to. -/
inductive ListenerKind where
  | onsuccess
  | onerror
deriving DecidableEq

/-- A listener attached to a request: when the engine fires it, `fn.call(thisArg, event)`
runs. -/
structure Listener where
  kind : ListenerKind
  fn : Handler
  thisArg : ThisValue
deriving DecidableEq

/-- The fields of the `IndexedDB` object. -/
structure Connection where
  dbName : String
  version : Nat
  structure_ : Structure
  openingCallback : Option Callback
  upgradeCallback : Option Callback
  isReady : Bool
  db : Option Database
deriving DecidableEq

/-- The outcome of running one function of the wrapper. -/
structure Run where
  self : Connection
  calls : List EngineCall
  invoked : List Invocation
  listeners : List Listener
  raised : Option JSError
deriving DecidableEq

/-! ## The open handshake -/

/-- The largest version the engine's `open` takes, `2^53 - 1`. -/
def maxVersion : Nat := 9007199254740991

/-- The method `open` (source lines 73-96): one open request goes to the engine, which
raises `TypeError` for a version out of range; the listeners of the request are
`dbUpgrade` and `requestSuccess`. -/
def open_ (self : Connection) : Run :=
  if self.version > maxVersion then
    ⟨self, [EngineCall.openDatabase self.dbName self.version], [], [], some JSError.TypeError⟩
  else ⟨self, [EngineCall.openDatabase self.dbName self.version], [], [], none⟩

/-- The constructor `IndexedDB` (source lines 34-69); an argument left out, an empty
name and a version `0` are replaced by the defaults, and an exception of `open` leaves
the constructor. -/
def IndexedDB (database : Option String) (version : Option Nat)
    (structure_ : Option Structure) (openingCallback upgradeCallback : Option Callback) : Run :=
  open_
    { dbName := match database with
        | some name => if name = "" then "default" else name
        | none => "default",
      version := match version with
        | some v => if v = 0 then 1 else v
        | none => 1,
      structure_ := structure_.getD defaultStructure,
      openingCallback := openingCallback,
      upgradeCallback := upgradeCallback,
      isReady := false,
      db := none }

/-- The method `requestSuccess` (source lines 102-134). -/
def requestSuccess (self : Connection) (event : Event) : Run :=
  { self := { self with db := some event.db, isReady := true },
    calls :=
      if self.version ≠ event.db.version && event.db.hasSetVersion then
        [EngineCall.setVersion self.version]
      else [],
    invoked :=
      match self.openingCallback with
      | some opening =>
        if self.version = event.db.version then [⟨opening.fn, opening.context, []⟩] else []
      | none => [],
    listeners := [],
    raised := none }

/-- The method `dbUpgrade` (source lines 140-239): `isReady` is cleared, the database of
the event is reconciled with the structure, `isReady` is set, and on the legacy path
the upgrade notification is called. -/
def dbUpgrade (self : Connection) (event : Event) (chrome : Bool) : Run :=
  match reconcile self.version self.structure_ event.db with
  | ⟨db, calls, some e⟩ =>
    ⟨{ self with isReady := false, db := some db }, calls, [], [], some e⟩
  | ⟨db, calls, none⟩ =>
    match self.upgradeCallback, chrome with
    | some upgrade, true =>
      match self.openingCallback with
      | some opening =>
        ⟨{ self with isReady := true, db := some db }, calls,
          [⟨upgrade.fn, opening.context, [JSArg.event event]⟩], [], none⟩
      | none =>
        ⟨{ self with isReady := true, db := some db }, calls, [], [], some JSError.TypeError⟩
    | _, _ => ⟨{ self with isReady := true, db := some db }, calls, [], [], none⟩

/-- A signal of the engine that one of the handshake listeners answers. -/
inductive Signal where
  | upgradeneeded (event : Event)
  | success (event : Event)
  | versionSuccess (event : Event)

/-- The listener attached to each signal: `onupgradeneeded` and `onsuccess` of the open
request (source lines 80-86), `onsuccess` of the version request (lines 117-119). -/
def handle (self : Connection) : Signal → Run
  | .upgradeneeded event => dbUpgrade self event false
  | .success event => requestSuccess self event
  | .versionSuccess event => dbUpgrade self event true

/-! ## The operations -/

/-- What a `try` block did: the calls it issued and the exception that ended it. -/
structure Attempt where
  calls : List EngineCall
  raised : Option JSError
deriving DecidableEq

/-- Sequencing inside a `try` block. -/
def Attempt.andThen (a : Attempt) (f : Attempt → Attempt) : Attempt :=
  match a.raised with
  | none => f a
  | some _ => a

/-- A request to the engine that is accepted. -/
def Attempt.request (a : Attempt) (c : EngineCall) : Attempt :=
  { a with calls := a.calls ++ [c] }

/-- A request to the engine that raises. -/
def Attempt.reject (a : Attempt) (c : EngineCall) (e : JSError) : Attempt :=
  { calls := a.calls ++ [c], raised := some e }

/-- The call `this.db.transaction([storeName], mode)`: a `TypeError` when there is no
database handle, the engine's `NotFoundError` when the database has no such store. -/
def transaction (self : Connection) (storeName : String) (mode : TransactionMode) : Attempt :=
  match self.db with
  | none => ⟨[], some JSError.TypeError⟩
  | some db =>
    if (objectStoreNames db).contains storeName then
      ⟨[EngineCall.transaction storeName mode], none⟩
    else ⟨[EngineCall.transaction storeName mode], some JSError.NotFoundError⟩

/-- The call `store.put(object)` of `create`: it raises when no key can be had for the
record. -/
def requestPut (self : Connection) (storeName : String) (object : Record) (a : Attempt) :
    Attempt :=
  match self.db with
  | none => { a with raised := some JSError.TypeError }
  | some db =>
    match db.stores.find? (fun s => s.name = storeName) with
    | none => a.reject (EngineCall.put storeName object) JSError.InvalidStateError
    | some s =>
      match keyFor s object with
      | .error e => a.reject (EngineCall.put storeName object) e
      | .ok _ => a.request (EngineCall.put storeName object)

/-- The calls `store.get(id)` and `store.delete(id)`, given as `c`: the engine raises
`DataError` unless `id` is a valid key. -/
def requestById (id : Value) (c : EngineCall) (a : Attempt) : Attempt :=
  if id.isKey then a.request c else a.reject c JSError.DataError

/-- The call `store.index(indexName)`: the engine's `NotFoundError` when the store has
no such index. -/
def index (self : Connection) (storeName indexName : String) (a : Attempt) : Attempt :=
  match self.db with
  | none => { a with raised := some JSError.TypeError }
  | some db =>
    if (indexNames db storeName).contains indexName then
      a.request (EngineCall.index storeName indexName)
    else a.reject (EngineCall.index storeName indexName) JSError.NotFoundError

/-- The value of `context || window`. -/
def ThisValue.orWindow : ThisValue → ThisValue
  | .undefined => ThisValue.window
  | v => v

/-- A call that returns at once (the `return` of the guard). -/
def idle (self : Connection) : Run := ⟨self, [], [], [], none⟩

/-- The `catch` clause every operation ends with (for instance source lines 277-285):
`onError`, if supplied, is called with the exception, `thisArg` being the value the
variable `context` has at that moment. -/
def catchError (self : Connection) (calls : List EngineCall) (error : JSError)
    (onError : Option Handler) (thisArg : ThisValue) : Run :=
  { self := self, calls := calls,
    invoked :=
      match onError with
      | some f => [⟨f, thisArg, [JSArg.error error]⟩]
      | none => [],
    listeners := [], raised := none }

/-- The end of a `try` block that ran through (for instance source lines 261-275): the
listeners are attached, bound to `context || window`. -/
def attach (self : Connection) (calls : List EngineCall) (onSuccess onError : Option Handler)
    (context : ThisValue) : Run :=
  { self := self, calls := calls, invoked := [],
    listeners :=
      (match onSuccess with
        | some f => [⟨ListenerKind.onsuccess, f, context.orWindow⟩]
        | none => []) ++
      (match onError with
        | some f => [⟨ListenerKind.onerror, f, context.orWindow⟩]
        | none => []),
    raised := none }

/-- The part the operations share after the `var` statement of their `try` block (for
instance source lines 256-285): when the statement ran through, `context` has received
its default and the listeners are attached; when one of its calls threw, the `catch`
clause runs with `context` as the caller passed it, the declarator
`context = context || window` being the last of the statement and not reached. -/
def settle (self : Connection) (a : Attempt) (onSuccess onError : Option Handler)
    (context : ThisValue) : Run :=
  match a.raised with
  | none => attach self a.calls onSuccess onError context
  | some error => catchError self a.calls error onError context

/-- The method `create` (source lines 246-287). -/
def create (self : Connection) (storeName : String) (object : Record)
    (onSuccess onError : Option Handler) (context : ThisValue) : Run :=
  if self.isReady = false || !hasProperty self.structure_ storeName then idle self
  else
    settle self
      ((transaction self storeName TransactionMode.READ_WRITE).andThen
        (requestPut self storeName object))
      onSuccess onError context

/-- The method `read` (source lines 294-335). -/
def read (self : Connection) (storeName : String) (id : Value)
    (onSuccess onError : Option Handler) (context : ThisValue) : Run :=
  if self.isReady = false || !hasProperty self.structure_ storeName then idle self
  else
    settle self
      ((transaction self storeName TransactionMode.READ_ONLY).andThen
        (requestById id (EngineCall.get storeName id)))
      onSuccess onError context

/-- The range `readAll` opens its cursor with, the result of
`this.keyRange.lowerBound(0)`. -/
def readAll_keyRange : KeyRange := KeyRange.atLeast (Value.num 0)

/-- The method `readAll` (source lines 341-383); the engine accepts the bound `0`. -/
def readAll (self : Connection) (storeName : String)
    (onSuccess onError : Option Handler) (context : ThisValue) : Run :=
  if self.isReady = false || !hasProperty self.structure_ storeName then idle self
  else
    settle self
      ((transaction self storeName TransactionMode.READ_ONLY).andThen fun a =>
        match KeyRange.lowerBound (Value.num 0) with
        | .ok range => a.request (EngineCall.openCursor storeName none range)
        | .error e => { a with raised := some e })
      onSuccess onError context

/-- The method `update` (source lines 389-393): a call of `create`. -/
def update (self : Connection) (storeName : String) (object : Record)
    (onSuccess onError : Option Handler) (context : ThisValue) : Run :=
  create self storeName object onSuccess onError context

/-- The method `remove` (source lines 399-440). -/
def remove (self : Connection) (storeName : String) (id : Value)
    (onSuccess onError : Option Handler) (context : ThisValue) : Run :=
  if self.isReady = false || !hasProperty self.structure_ storeName then idle self
  else
    settle self
      ((transaction self storeName TransactionMode.READ_WRITE).andThen
        (requestById id (EngineCall.delete storeName id)))
      onSuccess onError context

/-- The method `empty` (source lines 446-487). -/
def empty (self : Connection) (storeName : String)
    (onSuccess onError : Option Handler) (context : ThisValue) : Run :=
  if self.isReady = false || !hasProperty self.structure_ storeName then idle self
  else
    settle self
      ((transaction self storeName TransactionMode.READ_WRITE).andThen fun a =>
        a.request (EngineCall.clear storeName))
      onSuccess onError context

/-- The method `find` (source lines 493-561). An exception of the `var` statement (no
database handle, no such store, no such index) reaches the `catch` clause before
`context` has its default; an exception of a range constructor (lines 510-530) reaches
it afterwards, and the cursor is not opened. -/
def find (self : Connection) (storeName indexName : String) (term : Value)
    (onSuccess onError : Option Handler) (context : ThisValue) : Run :=
  if self.isReady = false || !hasProperty self.structure_ storeName then idle self
  else
    match (transaction self storeName TransactionMode.READ_ONLY).andThen
        (index self storeName indexName) with
    | ⟨calls, some error⟩ => catchError self calls error onError context
    | ⟨calls, none⟩ =>
      match find_keyRange term with
      | .error error => catchError self calls error onError context.orWindow
      | .ok range =>
        attach self (calls ++ [EngineCall.openCursor storeName (some indexName) range])
          onSuccess onError context

/-! ## Vocabulary of the statements about `dbUpgrade` -/

/-- The `put` calls among the calls issued, in order, as pairs of store name and
record. -/
def putsOf (calls : List EngineCall) : List (String × Record) :=
  calls.filterMap fun c =>
    match c with
    | .put store value => some (store, value)
    | _ => none

/-- The seed records a store description carries: the elements of an array, a single
record object as a one-element sequence, nothing otherwise. -/
def seedRecords (s : StoreSchema) : List Record :=
  match s.defaultValues with
  | .array values => values
  | .object value => [value]
  | _ => []

/-- Whether a call creates or deletes the store of the given name or changes its
records. -/
def EngineCall.touches (c : EngineCall) (name : String) : Bool :=
  match c with
  | .createObjectStore n _ => n = name
  | .deleteObjectStore n => n = name
  | .put n _ => n = name
  | .delete n _ => n = name
  | .clear n => n = name
  | _ => false

/-- The store `st'` has the name, the options and the records of the store `st`. -/
def ObjectStore.sameRecords (st st' : ObjectStore) : Prop :=
  st'.name = st.name ∧ st'.options = st.options ∧ st'.records = st.records

/-- Between the states `t` and `t'` of an upgrade transaction the store named `m` was
left alone: every store of that name is still there with its records, and no call
issued in between touches it. -/
def Untouched (m : String) (t t' : Txn) : Prop :=
  (∀ st ∈ t.db.stores, st.name = m → ∃ st' ∈ t'.db.stores, st.sameRecords st') ∧
  (∃ cs, t'.calls = t.calls ++ cs ∧ ∀ c ∈ cs, c.touches m = false)

/-- The `put` calls the creation loop of a pass is to issue: store by store in the order
of the structure, for every declared store the database does not hold when the pass
starts, and only at version 1, the seed records of the store in their order. -/
def seedSequence (version : Nat) (s : Structure) (db : Database) : List (String × Record) :=
  (s.map fun p =>
    if p.1 ∉ objectStoreNames db ∧ version = 1 then
      (seedRecords p.2).map (fun v => (p.1, v)) else []).flatten

/-- Between the states `t` and `t'` the `put` calls issued are an initial segment of
`expected`, and all of it when `t'` carries no exception. -/
def Puts (t t' : Txn) (expected : List (String × Record)) : Prop :=
  ∃ pre, putsOf t'.calls = putsOf t.calls ++ pre ∧ pre <+: expected ∧
    (t'.raised = none → pre = expected)

/-- Between the states `t` and `t'` no store name other than `n` was added. -/
def Grows (n : String) (t t' : Txn) : Prop :=
  ∀ m, m ∈ objectStoreNames t'.db → m ∈ objectStoreNames t.db ∨ m = n

/-! ## Concrete connections used in the checks below -/

/-- The record `{id: 1, text: "hi"}`. -/
def noteHi : Record := ⟨[("id", Value.num 1), ("text", Value.str (utf16 "hi"))]⟩

/-- The record `{id: 2, text: "x"}`. -/
def noteX : Record := ⟨[("id", Value.num 2), ("text", Value.str (utf16 "x"))]⟩

/-- The record `{id: -1, text: "x"}`. -/
def noteBelow : Record := ⟨[("id", Value.num (-1)), ("text", Value.str (utf16 "x"))]⟩

/-- The record `{title: "a"}`. -/
def taskA : Record := ⟨[("title", Value.str (utf16 "a"))]⟩

/-- The record `{title: "b"}`. -/
def taskB : Record := ⟨[("title", Value.str (utf16 "b"))]⟩

/-- A store description with a key path, one index and one seed record. -/
def notesSchema : StoreSchema :=
  { options := some ⟨some "id", true⟩,
    indexes := Indexes.array [⟨"byText", "text", false⟩],
    defaultValues := DefaultValues.array [noteHi] }

/-- A store description with nothing but the store itself. -/
def bareSchema : StoreSchema :=
  { options := none, indexes := Indexes.undefined, defaultValues := DefaultValues.undefined }

/-- An empty engine store of the given name. -/
def bareStore (name : String) : ObjectStore := ⟨name, none, [], [], 1⟩

/-- The engine store that `notesSchema` describes, holding its seed record. -/
def notesStore : ObjectStore :=
  ⟨"notes", some ⟨some "id", true⟩, [⟨"byText", "text", false⟩], [⟨Value.num 1, noteHi⟩], 2⟩

/-- A ready connection at version 1 that declares `notes` and whose database has it. -/
def notesConnection : Connection :=
  { dbName := "app", version := 1, structure_ := [("notes", notesSchema)],
    openingCallback := none, upgradeCallback := none, isReady := true,
    db := some ⟨1, [notesStore], false⟩ }

/-- A connection just constructed at version 2 that declares the single store `keep`. -/
def keepConnection : Connection :=
  (IndexedDB (some "app") (some 2) (some [("keep", bareSchema)]) none none).self

/-- An upgrade event on a database holding `a`, `b` and `keep`. -/
def keepEvent : Event := ⟨0, ⟨2, [bareStore "a", bareStore "b", bareStore "keep"], false⟩⟩

/-- A connection just constructed at version 2 that declares the single store
`undefined`. -/
def undefinedConnection : Connection :=
  (IndexedDB (some "app") (some 2) (some [("undefined", bareSchema)]) none none).self

/-- An upgrade event on a database holding `a`, `b` and `undefined`. -/
def undefinedEvent : Event :=
  ⟨0, ⟨2, [bareStore "a", bareStore "b", bareStore "undefined"], false⟩⟩

/-- A second upgrade event, on the database the pass over `undefinedEvent` leaves. -/
def undefinedEventAgain : Event := ⟨1, ⟨2, [bareStore "b", bareStore "undefined"], false⟩⟩

/-- A connection just constructed at version 2 with an upgrade notification and no
opening notification. -/
def legacyConnection : Connection :=
  (IndexedDB (some "app") (some 2) (some [("notes", notesSchema)]) none
    (some ⟨⟨7, false⟩, ThisValue.object 3⟩)).self

/-- The success event of a legacy engine: the database is still at version 1 and has
the method `setVersion`. -/
def legacyEvent : Event := ⟨0, ⟨1, [], true⟩⟩

/-- The success event of the version request issued after `legacyEvent`. -/
def legacyVersionEvent : Event := ⟨1, ⟨2, [], true⟩⟩

/-- A store whose first record has a key below zero. -/
def negativeStore : ObjectStore :=
  ⟨"notes", some ⟨some "id", true⟩, [],
    [⟨Value.num (-1), noteBelow⟩, ⟨Value.num 1, noteHi⟩], 2⟩

/-- A ready connection whose database holds `negativeStore`. -/
def negativeConnection : Connection :=
  { dbName := "app", version := 1, structure_ := [("notes", notesSchema)],
    openingCallback := none, upgradeCallback := none, isReady := true,
    db := some ⟨1, [negativeStore], false⟩ }

/-- A connection opened at the version its database already has, declaring a store
`notes` that the database does not hold: ready, with no upgrade run. -/
def staleConnection : Connection :=
  (requestSuccess
    (IndexedDB (some "app") (some 1) (some [("notes", notesSchema)]) none none).self
    ⟨0, ⟨1, [], false⟩⟩).self

/-- A connection just constructed, before any signal of the engine. -/
def freshConnection : Connection :=
  (IndexedDB (some "app") (some 1) (some [("notes", notesSchema)]) none none).self

/-- A connection just constructed at version 2 that declares `notes` and `tasks`. -/
def tasksConnection : Connection :=
  (IndexedDB (some "app") (some 2)
    (some [("notes", notesSchema), ("tasks", bareSchema)]) none none).self

/-- An upgrade event on a database that holds `notes` and not `tasks`. -/
def tasksEvent : Event := ⟨0, ⟨2, [notesStore], false⟩⟩

/-- A store description without options, with two seed records. -/
def keylessSchema : StoreSchema :=
  { options := none, indexes := Indexes.undefined,
    defaultValues := DefaultValues.array [taskA, taskB] }

/-- A connection just constructed at version 1 that declares `tasks` by
`keylessSchema`. -/
def keylessConnection : Connection :=
  (IndexedDB (some "app") (some 1) (some [("tasks", keylessSchema)]) none none).self

/-- The first upgrade event, on an empty database. -/
def firstEvent : Event := ⟨0, ⟨1, [], false⟩⟩

/-! # Theorems -/

/-! ## The order of keys -/

theorem compare_swap_eq {α : Type} [LinearOrder α] (a b : α) :
    (compare a b).swap = compare b a := by
  rcases lt_trichotomy a b with h | h | h
  · rw [compare_lt_iff_lt.2 h, compare_gt_iff_gt.2 h]; rfl
  · subst h; rw [compare_eq_iff_eq.2 rfl]; rfl
  · rw [compare_gt_iff_gt.2 h, compare_lt_iff_lt.2 h]; rfl

theorem cmpUnits_eq_iff : ∀ xs ys : List Nat, cmpUnits xs ys = Ordering.eq ↔ xs = ys
  | [], [] => by simp [cmpUnits]
  | [], _ :: _ => by simp [cmpUnits]
  | _ :: _, [] => by simp [cmpUnits]
  | x :: xs, y :: ys => by
    have h1 : compare x y = Ordering.eq ↔ x = y := compare_eq_iff_eq
    have h2 := cmpUnits_eq_iff xs ys
    simp only [cmpUnits, List.cons.injEq]
    cases h : compare x y <;> simp_all

theorem cmpUnits_swap : ∀ xs ys : List Nat, (cmpUnits xs ys).swap = cmpUnits ys xs
  | [], [] => rfl
  | [], _ :: _ => rfl
  | _ :: _, [] => rfl
  | x :: xs, y :: ys => by
    have h1 := compare_swap_eq x y
    have h2 := cmpUnits_swap xs ys
    simp only [cmpUnits]
    cases h : compare x y <;> rw [h] at h1
    · rw [← h1]; rfl
    · rw [← h1]; exact h2
    · rw [← h1]; rfl

mutual
theorem Value.cmp_eq_iff : ∀ a b : Value, Value.cmp a b = Ordering.eq ↔ a = b
  | .num a, .num b => by simp [Value.cmp, compare_eq_iff_eq]
  | .num _, .str _ => by simp [Value.cmp]
  | .num _, .arr _ => by simp [Value.cmp]
  | .num _, .other => by simp [Value.cmp]
  | .str _, .num _ => by simp [Value.cmp]
  | .str a, .str b => by simp [Value.cmp, cmpUnits_eq_iff]
  | .str _, .arr _ => by simp [Value.cmp]
  | .str _, .other => by simp [Value.cmp]
  | .arr _, .num _ => by simp [Value.cmp]
  | .arr _, .str _ => by simp [Value.cmp]
  | .arr xs, .arr ys => by simp [Value.cmp, Value.cmpList_eq_iff xs ys]
  | .arr _, .other => by simp [Value.cmp]
  | .other, .num _ => by simp [Value.cmp]
  | .other, .str _ => by simp [Value.cmp]
  | .other, .arr _ => by simp [Value.cmp]
  | .other, .other => by simp [Value.cmp]
theorem Value.cmpList_eq_iff :
    ∀ xs ys : List Value, Value.cmpList xs ys = Ordering.eq ↔ xs = ys
  | [], [] => by simp [Value.cmpList]
  | [], _ :: _ => by simp [Value.cmpList]
  | _ :: _, [] => by simp [Value.cmpList]
  | x :: xs, y :: ys => by
    have h1 := Value.cmp_eq_iff x y
    have h2 := Value.cmpList_eq_iff xs ys
    simp only [Value.cmpList, List.cons.injEq]
    cases h : Value.cmp x y <;> simp_all
end

mutual
theorem Value.cmp_swap : ∀ a b : Value, (Value.cmp a b).swap = Value.cmp b a
  | .num a, .num b => by simp only [Value.cmp]; exact compare_swap_eq a b
  | .num _, .str _ => rfl
  | .num _, .arr _ => rfl
  | .num _, .other => rfl
  | .str _, .num _ => rfl
  | .str a, .str b => by simp only [Value.cmp]; exact cmpUnits_swap a b
  | .str _, .arr _ => rfl
  | .str _, .other => rfl
  | .arr _, .num _ => rfl
  | .arr _, .str _ => rfl
  | .arr xs, .arr ys => by simp only [Value.cmp]; exact Value.cmpList_swap xs ys
  | .arr _, .other => rfl
  | .other, .num _ => rfl
  | .other, .str _ => rfl
  | .other, .arr _ => rfl
  | .other, .other => rfl
theorem Value.cmpList_swap :
    ∀ xs ys : List Value, (Value.cmpList xs ys).swap = Value.cmpList ys xs
  | [], [] => rfl
  | [], _ :: _ => rfl
  | _ :: _, [] => rfl
  | x :: xs, y :: ys => by
    have h1 := Value.cmp_swap x y
    have h2 := Value.cmpList_swap xs ys
    simp only [Value.cmpList]
    cases h : Value.cmp x y <;> rw [h] at h1
    · rw [← h1]; rfl
    · rw [← h1]; exact h2
    · rw [← h1]; rfl
end

theorem Value.le_def (a b : Value) : a ≤ b ↔ Value.cmp a b ≠ Ordering.gt := Iff.rfl

/-- Numbers are ordered as keys the way they are ordered as numbers. -/
theorem Value.num_le_num (a b : Int) : Value.num a ≤ Value.num b ↔ a ≤ b := by
  rw [Value.le_def, Value.cmp]
  constructor
  · intro h
    by_contra hc
    exact h (compare_gt_iff_gt.2 (not_le.1 hc))
  · intro h hc
    exact absurd (compare_gt_iff_gt.1 hc) (not_lt.2 h)

/-- Two keys, each not above the other, are the same key. -/
theorem Value.le_antisymm (a b : Value) (h1 : a ≤ b) (h2 : b ≤ a) : a = b := by
  rw [Value.le_def] at h1 h2
  have hs := Value.cmp_swap a b
  cases h : Value.cmp a b
  · rw [h] at hs; exact absurd hs.symm h2
  · exact (Value.cmp_eq_iff a b).1 h
  · exact absurd h h1

theorem Value.le_refl (a : Value) : a ≤ a := by
  rw [Value.le_def, (Value.cmp_eq_iff a a).2 rfl]; decide

theorem includes_atMost (u k : Value) : (KeyRange.atMost u).includes k = true ↔ k ≤ u := by
  rw [Value.le_def]
  simp only [KeyRange.includes, KeyRange.atMost]
  cases Value.cmp k u <;> simp

theorem includes_atLeast (l k : Value) : (KeyRange.atLeast l).includes k = true ↔ l ≤ k := by
  rw [Value.le_def]
  simp only [KeyRange.includes, KeyRange.atLeast]
  cases Value.cmp l k <;> simp

theorem includes_between (l u k : Value) :
    (KeyRange.between l u).includes k = true ↔ l ≤ k ∧ k ≤ u := by
  rw [Value.le_def, Value.le_def]
  simp only [KeyRange.includes, KeyRange.between]
  cases Value.cmp l k <;> cases Value.cmp k u <;> simp

theorem includes_exactly (v k : Value) : (KeyRange.exactly v).includes k = true ↔ k = v := by
  have h : (KeyRange.exactly v).includes k = true ↔ v ≤ k ∧ k ≤ v := includes_between v v k
  rw [h]
  constructor
  · rintro ⟨h1, h2⟩; exact Value.le_antisymm k v h2 h1
  · rintro rfl; exact ⟨Value.le_refl k, Value.le_refl k⟩

/-! ## The range of `find` -/

theorem find_keyRange_pair (low high : Value) :
    find_keyRange (Value.arr [low, high]) =
      if low = Value.num 0 then KeyRange.upperBound high
      else if high = Value.num 0 then KeyRange.lowerBound low
      else KeyRange.bound low high := rfl

theorem find_keyRange_not_pair (term : Value) (h : ∀ low high, term ≠ Value.arr [low, high]) :
    find_keyRange term = KeyRange.only term := by
  unfold find_keyRange
  split
  · next low high => exact absurd rfl (h low high)
  · rfl

theorem find_ok (self : Connection) (db : Database) (storeName indexName : String)
    (term : Value) (onSuccess onError : Option Handler) (context : ThisValue)
    (h1 : self.isReady = true) (h2 : hasProperty self.structure_ storeName = true)
    (h3 : self.db = some db) (h4 : (objectStoreNames db).contains storeName = true)
    (h5 : (indexNames db storeName).contains indexName = true)
    (range : KeyRange) (hr : find_keyRange term = .ok range) :
    find self storeName indexName term onSuccess onError context =
      attach self
        [EngineCall.transaction storeName TransactionMode.READ_ONLY,
         EngineCall.index storeName indexName,
         EngineCall.openCursor storeName (some indexName) range]
        onSuccess onError context := by
  have h4m : storeName ∈ objectStoreNames db := by simpa using h4
  have h5m : indexName ∈ indexNames db storeName := by simpa using h5
  simp [find, h1, h2, transaction, h3, h4m, index, h5m, Attempt.andThen, Attempt.request, hr]

theorem find_error (self : Connection) (db : Database) (storeName indexName : String)
    (term : Value) (onSuccess onError : Option Handler) (context : ThisValue)
    (h1 : self.isReady = true) (h2 : hasProperty self.structure_ storeName = true)
    (h3 : self.db = some db) (h4 : (objectStoreNames db).contains storeName = true)
    (h5 : (indexNames db storeName).contains indexName = true)
    (e : JSError) (hr : find_keyRange term = .error e) :
    find self storeName indexName term onSuccess onError context =
      catchError self
        [EngineCall.transaction storeName TransactionMode.READ_ONLY,
         EngineCall.index storeName indexName]
        e onError context.orWindow := by
  have h4m : storeName ∈ objectStoreNames db := by simpa using h4
  have h5m : indexName ∈ indexNames db storeName := by simpa using h5
  simp [find, h1, h2, transaction, h3, h4m, index, h5m, Attempt.andThen, Attempt.request, hr]

/-- C7 fails as stated: for the pair `[10, 5]`, neither element `0`, no closed interval
is given to the cursor. The engine's `bound` raises `DataError`, `find` opens no cursor
and calls `onError` with the error. -/
theorem find_rejects_descending_pair :
    find_keyRange (Value.arr [Value.num 10, Value.num 5]) = .error JSError.DataError ∧
    (find notesConnection "notes" "byText" (Value.arr [Value.num 10, Value.num 5])
        (some ⟨0, false⟩) (some ⟨1, false⟩) ThisValue.undefined).calls =
      [EngineCall.transaction "notes" TransactionMode.READ_ONLY,
       EngineCall.index "notes" "byText"] ∧
    (find notesConnection "notes" "byText" (Value.arr [Value.num 10, Value.num 5])
        (some ⟨0, false⟩) (some ⟨1, false⟩) ThisValue.undefined).invoked =
      [⟨⟨1, false⟩, ThisValue.window, [JSArg.error JSError.DataError]⟩] ∧
    (find notesConnection "notes" "byText" (Value.arr [Value.num 10, Value.num 5])
        (some ⟨0, false⟩) (some ⟨1, false⟩) ThisValue.undefined).listeners = [] := by
  decide

/-- C7, amended: the range `find` hands to the index cursor when the engine accepts the
bounds. For a two-element pair `[low, high]` it is the closed upper bound `key ≤ high`
when `low` is `0` and `high` is a valid key, otherwise the closed lower bound
`key ≥ low` when `high` is `0` and `low` is a valid key, otherwise the closed interval
from `low` to `high` when both are valid keys and `low` is not above `high`; for a term
that is not a two-element pair and is a valid key it is the exact match `key = term`.
In every other case the engine's range constructor raises `DataError`. So `[0, 10]`
accepts the keys `≤ 10`, `[5, 0]` the keys `≥ 5`, `[5, 10]` the keys between `5` and
`10`, and `7` only the key `7`. On a ready connection whose store and index exist,
the cursor is opened with the range computed; when the constructor raises, no cursor
is opened and `onError`, if supplied, is called once with the error. -/
theorem find_keyRange_spec (term k : Value) :
    (∀ low high, term = Value.arr [low, high] →
      (low = Value.num 0 → high.isKey = true →
        find_keyRange term = .ok (KeyRange.atMost high) ∧
        ((KeyRange.atMost high).includes k = true ↔ k ≤ high)) ∧
      (low ≠ Value.num 0 → high = Value.num 0 → low.isKey = true →
        find_keyRange term = .ok (KeyRange.atLeast low) ∧
        ((KeyRange.atLeast low).includes k = true ↔ low ≤ k)) ∧
      (low ≠ Value.num 0 → high ≠ Value.num 0 → low.isKey = true → high.isKey = true →
        low ≤ high →
        find_keyRange term = .ok (KeyRange.between low high) ∧
        ((KeyRange.between low high).includes k = true ↔ low ≤ k ∧ k ≤ high)) ∧
      (low = Value.num 0 → high.isKey = false →
        find_keyRange term = .error JSError.DataError) ∧
      (low ≠ Value.num 0 → high = Value.num 0 → low.isKey = false →
        find_keyRange term = .error JSError.DataError) ∧
      (low ≠ Value.num 0 → high ≠ Value.num 0 →
        low.isKey = false ∨ high.isKey = false ∨ ¬ low ≤ high →
        find_keyRange term = .error JSError.DataError)) ∧
    ((∀ low high, term ≠ Value.arr [low, high]) →
      (term.isKey = true →
        find_keyRange term = .ok (KeyRange.exactly term) ∧
        ((KeyRange.exactly term).includes k = true ↔ k = term)) ∧
      (term.isKey = false → find_keyRange term = .error JSError.DataError)) ∧
    (find_keyRange (Value.arr [Value.num 0, Value.num 10]) =
        .ok (KeyRange.atMost (Value.num 10)) ∧
      ((KeyRange.atMost (Value.num 10)).includes k = true ↔ k ≤ Value.num 10)) ∧
    (find_keyRange (Value.arr [Value.num 5, Value.num 0]) =
        .ok (KeyRange.atLeast (Value.num 5)) ∧
      ((KeyRange.atLeast (Value.num 5)).includes k = true ↔ Value.num 5 ≤ k)) ∧
    (find_keyRange (Value.arr [Value.num 5, Value.num 10]) =
        .ok (KeyRange.between (Value.num 5) (Value.num 10)) ∧
      ((KeyRange.between (Value.num 5) (Value.num 10)).includes k = true ↔
        Value.num 5 ≤ k ∧ k ≤ Value.num 10)) ∧
    (find_keyRange (Value.num 7) = .ok (KeyRange.exactly (Value.num 7)) ∧
      ((KeyRange.exactly (Value.num 7)).includes k = true ↔ k = Value.num 7)) ∧
    (∀ (self : Connection) (db : Database) (storeName indexName : String)
        (onSuccess onError : Option Handler) (context : ThisValue),
      self.isReady = true → hasProperty self.structure_ storeName = true →
      self.db = some db → (objectStoreNames db).contains storeName = true →
      (indexNames db storeName).contains indexName = true →
      (∀ range, find_keyRange term = .ok range →
        (find self storeName indexName term onSuccess onError context).calls =
          [EngineCall.transaction storeName TransactionMode.READ_ONLY,
           EngineCall.index storeName indexName,
           EngineCall.openCursor storeName (some indexName) range] ∧
        (find self storeName indexName term onSuccess onError context).invoked = [] ∧
        (find self storeName indexName term onSuccess onError context).raised = none) ∧
      (∀ e, find_keyRange term = .error e →
        (find self storeName indexName term onSuccess onError context).calls =
          [EngineCall.transaction storeName TransactionMode.READ_ONLY,
           EngineCall.index storeName indexName] ∧
        (find self storeName indexName term onSuccess onError context).invoked =
          (match onError with
            | some f => [⟨f, context.orWindow, [JSArg.error e]⟩]
            | none => []) ∧
        (find self storeName indexName term onSuccess onError context).listeners = [] ∧
        (find self storeName indexName term onSuccess onError context).raised = none)) := by
  refine ⟨?_, ?_, ⟨by decide, includes_atMost _ k⟩, ⟨by decide, includes_atLeast _ k⟩,
    ⟨by decide, includes_between _ _ k⟩, ⟨by decide, includes_exactly _ k⟩, ?_⟩
  · rintro low high rfl
    rw [find_keyRange_pair]
    refine ⟨?_, ?_, ?_, ?_, ?_, ?_⟩
    · intro h0 hk
      exact ⟨by rw [if_pos h0, KeyRange.upperBound, if_pos hk], includes_atMost high k⟩
    · intro h0 h1 hk
      exact ⟨by rw [if_neg h0, if_pos h1, KeyRange.lowerBound, if_pos hk],
        includes_atLeast low k⟩
    · intro h0 h1 hl hh hle
      refine ⟨?_, includes_between low high k⟩
      rw [if_neg h0, if_neg h1, KeyRange.bound, hl, hh]
      simp only [Bool.and_self, if_true]
      rw [if_neg ((Value.le_def low high).1 hle)]
    · intro h0 hk
      rw [if_pos h0, KeyRange.upperBound, hk]
      rfl
    · intro h0 h1 hk
      rw [if_neg h0, if_pos h1, KeyRange.lowerBound, hk]
      rfl
    · intro h0 h1 hc
      rw [if_neg h0, if_neg h1, KeyRange.bound]
      rcases hc with hc | hc | hc
      · rw [hc]; rfl
      · rw [hc, Bool.and_false]; rfl
      · split
        · rw [if_pos (by
            by_contra hn
            exact hc ((Value.le_def low high).2 hn))]
        · rfl
  · intro h
    rw [find_keyRange_not_pair term h]
    refine ⟨?_, ?_⟩
    · intro hk
      exact ⟨by rw [KeyRange.only, if_pos hk], includes_exactly term k⟩
    · intro hk
      rw [KeyRange.only, hk]
      rfl
  · intro self db storeName indexName onSuccess onError context h1 h2 h3 h4 h5
    refine ⟨?_, ?_⟩
    · intro range hr
      rw [find_ok self db storeName indexName term onSuccess onError context h1 h2 h3 h4 h5
        range hr]
      exact ⟨rfl, rfl, rfl⟩
    · intro e hr
      rw [find_error self db storeName indexName term onSuccess onError context h1 h2 h3 h4
        h5 e hr]
      exact ⟨rfl, rfl, rfl, rfl⟩

/-- The statement of `find_keyRange_spec` at the term `[5, 10]`, the key `7` and the
connection `notesConnection`. -/
theorem find_keyRange_spec_witness :
    (find_keyRange (Value.arr [Value.num 5, Value.num 10]) =
        .ok (KeyRange.between (Value.num 5) (Value.num 10)) ∧
      ((KeyRange.between (Value.num 5) (Value.num 10)).includes (Value.num 7) = true ↔
        Value.num 5 ≤ Value.num 7 ∧ Value.num 7 ≤ Value.num 10)) ∧
    ((find notesConnection "notes" "byText" (Value.arr [Value.num 5, Value.num 10]) none none
        ThisValue.undefined).calls =
      [EngineCall.transaction "notes" TransactionMode.READ_ONLY,
       EngineCall.index "notes" "byText",
       EngineCall.openCursor "notes" (some "byText")
         (KeyRange.between (Value.num 5) (Value.num 10))] ∧
     (find notesConnection "notes" "byText" (Value.arr [Value.num 5, Value.num 10]) none none
        ThisValue.undefined).invoked = [] ∧
     (find notesConnection "notes" "byText" (Value.arr [Value.num 5, Value.num 10]) none none
        ThisValue.undefined).raised = none) :=
  ⟨((find_keyRange_spec (Value.arr [Value.num 5, Value.num 10]) (Value.num 7)).1
      (Value.num 5) (Value.num 10) rfl).2.2.1 (by decide) (by decide) rfl rfl
      ((Value.num_le_num 5 10).2 (by decide)),
   ((find_keyRange_spec (Value.arr [Value.num 5, Value.num 10]) (Value.num 7)).2.2.2.2.2.2
      notesConnection ⟨1, [notesStore], false⟩ "notes" "byText" none none ThisValue.undefined
      (by decide) (by decide) rfl (by decide) (by decide)).1 _ (by decide)⟩

/-! ## The defects, evaluated -/

/-- C1, at a failing input: the structure declares `keep` and the database holds `a`,
`b` and `keep`. The deletion loop deletes `a`, reads `keep` at position 1 of the
shortened list, reads `undefined` at position 2 and asks the engine to delete a store
of that name: the pass raises `NotFoundError`, and the undeclared store `b` is still
there. -/
theorem dbUpgrade_deletion_loop_raises :
    hasProperty keepConnection.structure_ "b" = false ∧
    (dbUpgrade keepConnection keepEvent false).calls =
      [EngineCall.deleteObjectStore "a", EngineCall.deleteObjectStore "undefined"] ∧
    (dbUpgrade keepConnection keepEvent false).raised = some JSError.NotFoundError ∧
    (dbUpgrade keepConnection keepEvent false).self.db.map objectStoreNames =
      some ["b", "keep"] ∧
    (dbUpgrade keepConnection keepEvent false).self.isReady = false := by
  decide

/-- C4, at a failing input: the structure declares the single store `undefined` and the
database holds `a`, `b` and `undefined`. The first pass completes and leaves `b`
behind; the second pass with the same structure deletes `b`. -/
theorem dbUpgrade_second_pass_deletes :
    (dbUpgrade undefinedConnection undefinedEvent false).raised = none ∧
    (dbUpgrade undefinedConnection undefinedEvent false).calls =
      [EngineCall.deleteObjectStore "a"] ∧
    (dbUpgrade undefinedConnection undefinedEvent false).self.db = some undefinedEventAgain.db ∧
    (dbUpgrade (dbUpgrade undefinedConnection undefinedEvent false).self
      undefinedEventAgain false).raised = none ∧
    (dbUpgrade (dbUpgrade undefinedConnection undefinedEvent false).self
      undefinedEventAgain false).calls = [EngineCall.deleteObjectStore "b"] ∧
    (dbUpgrade (dbUpgrade undefinedConnection undefinedEvent false).self
      undefinedEventAgain false).self.db.map objectStoreNames = some ["undefined"] := by
  decide

/-- C5, at a failing input: the success signal arrives from a legacy engine whose
database is at version 1 while version 2 was requested. `requestSuccess` issues the
version request and sets `isReady` although the reconciliation that request drives has
not run: the declared store `notes` does not exist yet. -/
theorem requestSuccess_ready_before_reconciliation :
    legacyConnection.isReady = false ∧
    (handle legacyConnection (Signal.success legacyEvent)).calls =
      [EngineCall.setVersion 2] ∧
    (handle legacyConnection (Signal.success legacyEvent)).self.isReady = true ∧
    (handle legacyConnection (Signal.success legacyEvent)).self.db.map objectStoreNames =
      some [] ∧
    hasProperty legacyConnection.structure_ "notes" = true := by
  decide

/-- C10, at a failing input: an upgrade notification was supplied and no opening
notification. On the legacy path the reconciliation completes, then `dbUpgrade` reads
`self.openingCallback.context`, which raises `TypeError`; the upgrade handler is not
invoked. -/
theorem dbUpgrade_legacy_notification_raises :
    legacyConnection.upgradeCallback = some ⟨⟨7, false⟩, ThisValue.object 3⟩ ∧
    legacyConnection.openingCallback = none ∧
    (reconcile 2 legacyConnection.structure_ legacyVersionEvent.db).raised = none ∧
    (handle (handle legacyConnection (Signal.success legacyEvent)).self
      (Signal.versionSuccess legacyVersionEvent)).raised = some JSError.TypeError ∧
    (handle (handle legacyConnection (Signal.success legacyEvent)).self
      (Signal.versionSuccess legacyVersionEvent)).invoked = [] := by
  decide

/-- C8, at a failing input: the store holds a record with key `-1`. The cursor of
`readAll` is opened with the range `lowerBound(0)`, which steps through the record with
key `1` only. -/
theorem readAll_skips_negative_key :
    KeyRange.lowerBound (Value.num 0) = .ok (KeyRange.atLeast (Value.num 0)) ∧
    (readAll negativeConnection "notes" (some ⟨1, false⟩) none ThisValue.undefined).calls =
      [EngineCall.transaction "notes" TransactionMode.READ_ONLY,
       EngineCall.openCursor "notes" none (KeyRange.atLeast (Value.num 0))] ∧
    negativeStore.records = [⟨Value.num (-1), noteBelow⟩, ⟨Value.num 1, noteHi⟩] ∧
    cursorRecords negativeStore (KeyRange.atLeast (Value.num 0)) =
      [⟨Value.num 1, noteHi⟩] := by
  decide

/-- C9, at a failing input: the connection is ready, `notes` is declared, and the engine
raises `NotFoundError` when the transaction is created. `onError` is called once with
the error, with `context` as the caller left it: a strict-mode handler called without a
context observes `undefined` as `this`, not the global object, whereas the listeners
attached when no exception is raised are bound to the global object. -/
theorem create_catch_uses_raw_context :
    (create staleConnection "notes" noteX (some ⟨0, true⟩) (some ⟨1, true⟩)
        ThisValue.undefined).invoked =
      [⟨⟨1, true⟩, ThisValue.undefined, [JSArg.error JSError.NotFoundError]⟩] ∧
    (create staleConnection "notes" noteX (some ⟨0, true⟩) (some ⟨1, true⟩)
        ThisValue.undefined).invoked.map Invocation.thisBinding = [ThisValue.undefined] ∧
    (create staleConnection "notes" noteX (some ⟨0, true⟩) (some ⟨1, true⟩)
        ThisValue.undefined).raised = none ∧
    (create notesConnection "notes" noteX (some ⟨0, true⟩) (some ⟨1, true⟩)
        ThisValue.undefined).listeners =
      [⟨ListenerKind.onsuccess, ⟨0, true⟩, ThisValue.window⟩,
       ⟨ListenerKind.onerror, ⟨1, true⟩, ThisValue.window⟩] := by
  decide

/-- C6 fails as stated: `toString` is not declared in the structure of
`notesConnection`, yet `read` passes the guard, asks the engine for a transaction on a
store of that name, and calls `onError` with the engine's `NotFoundError`. -/
theorem read_inherited_name_passes_guard :
    notesConnection.structure_.lookup "toString" = none ∧
    (read notesConnection "toString" (Value.num 1) none (some ⟨1, false⟩)
        ThisValue.undefined).calls =
      [EngineCall.transaction "toString" TransactionMode.READ_ONLY] ∧
    (read notesConnection "toString" (Value.num 1) none (some ⟨1, false⟩)
        ThisValue.undefined).invoked =
      [⟨⟨1, false⟩, ThisValue.undefined, [JSArg.error JSError.NotFoundError]⟩] := by
  decide

/-- C6, amended: when `isReady` is false, or the read `structure[storeName]` gives
`undefined` (the name is neither declared nor a member the structure object inherits),
each of the seven operations returns at once: no engine call, no callback invoked, no
listener attached, nothing raised, the connection unchanged. -/
theorem guard_drops_operation (self : Connection) (storeName indexName : String)
    (object : Record) (id term : Value) (onSuccess onError : Option Handler)
    (context : ThisValue)
    (h : self.isReady = false ∨ hasProperty self.structure_ storeName = false) :
    create self storeName object onSuccess onError context = ⟨self, [], [], [], none⟩ ∧
    read self storeName id onSuccess onError context = ⟨self, [], [], [], none⟩ ∧
    readAll self storeName onSuccess onError context = ⟨self, [], [], [], none⟩ ∧
    update self storeName object onSuccess onError context = ⟨self, [], [], [], none⟩ ∧
    remove self storeName id onSuccess onError context = ⟨self, [], [], [], none⟩ ∧
    empty self storeName onSuccess onError context = ⟨self, [], [], [], none⟩ ∧
    find self storeName indexName term onSuccess onError context =
      ⟨self, [], [], [], none⟩ := by
  have hg : (self.isReady = false || !hasProperty self.structure_ storeName) = true := by
    rcases h with h | h <;> simp [h]
  refine ⟨?_, ?_, ?_, ?_, ?_, ?_, ?_⟩ <;>
    simp only [create, read, readAll, update, remove, empty, find, hg, if_true, idle]

/-- The statement of `guard_drops_operation` on a connection that is not ready and on a
ready connection with the undeclared name `tasks`. -/
theorem guard_drops_operation_witness :
    (create freshConnection "notes" noteX (some ⟨0, false⟩) (some ⟨1, false⟩)
        ThisValue.undefined = ⟨freshConnection, [], [], [], none⟩) ∧
    (find notesConnection "tasks" "byText" (Value.num 7) (some ⟨0, false⟩) (some ⟨1, false⟩)
        ThisValue.undefined = ⟨notesConnection, [], [], [], none⟩) :=
  ⟨(guard_drops_operation freshConnection "notes" "byText" noteX (Value.num 2)
      (Value.num 7) (some ⟨0, false⟩) (some ⟨1, false⟩) ThisValue.undefined
      (Or.inl (by decide))).1,
   (guard_drops_operation notesConnection "tasks" "byText" noteX (Value.num 2)
      (Value.num 7) (some ⟨0, false⟩) (some ⟨1, false⟩) ThisValue.undefined
      (Or.inr (by decide))).2.2.2.2.2.2⟩

/-! ## The upgrade transaction, step by step -/

theorem Untouched.refl (m : String) (t : Txn) : Untouched m t t :=
  ⟨fun st hst _ => ⟨st, hst, rfl, rfl, rfl⟩, [], by simp, by simp⟩

theorem Untouched.trans {m : String} {t t1 t2 : Txn} (h1 : Untouched m t t1)
    (h2 : Untouched m t1 t2) : Untouched m t t2 := by
  obtain ⟨hs1, cs1, hc1, ht1⟩ := h1
  obtain ⟨hs2, cs2, hc2, ht2⟩ := h2
  refine ⟨?_, cs1 ++ cs2, ?_, ?_⟩
  · intro st hst hm
    obtain ⟨st1, hst1, hn1, ho1, hr1⟩ := hs1 st hst hm
    obtain ⟨st2, hst2, hn2, ho2, hr2⟩ := hs2 st1 hst1 (hn1.trans hm)
    exact ⟨st2, hst2, hn2.trans hn1, ho2.trans ho1, hr2.trans hr1⟩
  · rw [hc2, hc1, List.append_assoc]
  · intro c hc
    rcases List.mem_append.1 hc with h | h
    · exact ht1 c h
    · exact ht2 c h

theorem Untouched.andThen {m : String} {t t1 : Txn} {f : Txn → Txn}
    (h1 : Untouched m t t1) (h2 : ∀ u, Untouched m u (f u)) :
    Untouched m t (t1.andThen f) := by
  unfold Txn.andThen
  split
  · exact h1.trans (h2 t1)
  · exact h1

theorem andThen_of_none {t : Txn} (f : Txn → Txn) (h : t.raised = none) :
    t.andThen f = f t := by
  unfold Txn.andThen; rw [h]

theorem mem_insertStore (s x : ObjectStore) (l : List ObjectStore) :
    x ∈ insertStore s l ↔ x = s ∨ x ∈ l := by
  induction l with
  | nil => simp [insertStore]
  | cons t ts ih =>
    unfold insertStore
    split
    · simp only [List.mem_cons, ih]; tauto
    · simp only [List.mem_cons]

theorem mem_names_iff (db : Database) (m : String) :
    m ∈ objectStoreNames db ↔ ∃ st ∈ db.stores, st.name = m := by
  simp [objectStoreNames]

theorem createObjectStore_untouched (m : String) (t : Txn) (n : String)
    (o : Option StoreOptions) (h : n ≠ m) : Untouched m t (createObjectStore t n o) := by
  unfold createObjectStore
  split
  · exact ⟨fun st hst _ => ⟨st, hst, rfl, rfl, rfl⟩, _, rfl, by simp [EngineCall.touches, h]⟩
  · split
    · exact ⟨fun st hst _ => ⟨st, hst, rfl, rfl, rfl⟩, _, rfl,
        by simp [EngineCall.touches, h]⟩
    · refine ⟨fun st hst _ => ⟨st, ?_, rfl, rfl, rfl⟩, _, rfl,
        by simp [EngineCall.touches, h]⟩
      exact (mem_insertStore _ _ _).2 (Or.inr hst)

theorem put_untouched (m : String) (t : Txn) (n : String) (v : Record) (h : n ≠ m) :
    Untouched m t (put t n v) := by
  unfold put
  split
  · exact ⟨fun st hst _ => ⟨st, hst, rfl, rfl, rfl⟩, _, rfl, by simp [EngineCall.touches, h]⟩
  · split
    · exact ⟨fun st hst _ => ⟨st, hst, rfl, rfl, rfl⟩, _, rfl,
        by simp [EngineCall.touches, h]⟩
    · refine ⟨fun st hst hm => ⟨st, ?_, rfl, rfl, rfl⟩, _, rfl,
        by simp [EngineCall.touches, h]⟩
      simp only [List.mem_map]
      exact ⟨st, hst, by rw [if_neg (by rw [hm]; exact fun e => h e.symm)]⟩

theorem createIndex_untouched (m : String) (t : Txn) (n : String) (i : IndexSpec) :
    Untouched m t (createIndex t n i) := by
  unfold createIndex
  split
  · exact ⟨fun st hst _ => ⟨st, hst, rfl, rfl, rfl⟩, _, rfl, by simp [EngineCall.touches]⟩
  · refine ⟨fun st hst _ => ?_, _, rfl, by simp [EngineCall.touches]⟩
    refine ⟨_, List.mem_map.2 ⟨st, hst, rfl⟩, ?_⟩
    split <;> exact ⟨rfl, rfl, rfl⟩

theorem objectStore_untouched (m : String) (t : Txn) (n : String) :
    Untouched m t (objectStore t n) := by
  unfold objectStore
  split
  · exact Untouched.refl m t
  · exact ⟨fun st hst _ => ⟨st, hst, rfl, rfl, rfl⟩, [], by simp, by simp⟩

theorem deleteObjectStore_untouched (m : String) (t : Txn) (x : String) (h : x ≠ m) :
    Untouched m t (deleteObjectStore t x) := by
  unfold deleteObjectStore
  split
  · refine ⟨fun st hst hm => ⟨st, ?_, rfl, rfl, rfl⟩, _, rfl, by simp [EngineCall.touches, h]⟩
    simp only [List.mem_filter, decide_eq_true_eq]
    exact ⟨hst, by rw [hm]; exact fun e => h e.symm⟩
  · exact ⟨fun st hst _ => ⟨st, hst, rfl, rfl, rfl⟩, _, rfl, by simp [EngineCall.touches, h]⟩

theorem putAll_untouched (m n : String) (h : n ≠ m) (vs : List Record) (t : Txn) :
    Untouched m t (putAll n vs t) := by
  induction vs generalizing t with
  | nil => exact Untouched.refl m t
  | cons v vs ih => exact (put_untouched m t n v h).andThen ih

theorem createIndexes_untouched (m n : String) (is : List IndexSpec) (t : Txn) :
    Untouched m t (createIndexes n is t) := by
  induction is generalizing t with
  | nil => exact Untouched.refl m t
  | cons i is ih =>
    unfold createIndexes
    refine Untouched.andThen ?_ ih
    split
    · exact Untouched.refl m t
    · exact createIndex_untouched m t n i

theorem upgradeStore_indexes_untouched (m n : String) (s : StoreSchema) (t : Txn) :
    Untouched m t
      (if s.indexes ≠ Indexes.undefined then
        (objectStore t n).andThen fun t =>
          match s.indexes with
          | .array indexes => createIndexes n indexes t
          | .object index =>
            if !(indexNames t.db n).contains index.name then createIndex t n index
            else t
          | _ => t
      else t) := by
  split
  · refine (objectStore_untouched m t n).andThen fun u => ?_
    split
    · exact createIndexes_untouched m n _ u
    · split
      · exact createIndex_untouched m u n _
      · exact Untouched.refl m u
    · exact Untouched.refl m u
  · exact Untouched.refl m t

theorem upgradeStore_untouched (m : String) (version : Nat) (n : String) (s : StoreSchema)
    (t : Txn) (h : m ∈ objectStoreNames t.db ∨ n ≠ m) :
    Untouched m t (upgradeStore version n s t) := by
  unfold upgradeStore
  refine Untouched.andThen ?_ (upgradeStore_indexes_untouched m n s)
  by_cases hc : (objectStoreNames t.db).contains n = true
  · simp only [hc, Bool.not_true, Bool.false_eq_true, if_false]
    exact Untouched.refl m t
  · have hn : n ≠ m := by
      rcases h with h | h
      · intro e; subst e; exact hc (by simpa using h)
      · exact h
    simp only [hc, Bool.not_false, if_true]
    refine (createObjectStore_untouched m t n s.options hn).andThen fun u => ?_
    split
    · split
      · exact putAll_untouched m n hn _ u
      · exact put_untouched m u n _ hn
      · exact Untouched.refl m u
    · exact Untouched.refl m u

theorem Untouched.mem_names {m : String} {t t' : Txn} (h : Untouched m t t')
    (hm : m ∈ objectStoreNames t.db) : m ∈ objectStoreNames t'.db := by
  obtain ⟨st, hst, hn⟩ := (mem_names_iff _ _).1 hm
  obtain ⟨st', hst', hn', _⟩ := h.1 st hst hn
  exact (mem_names_iff _ _).2 ⟨st', hst', hn'.trans hn⟩

theorem upgradeStores_untouched (m : String) (version : Nat) (l : Structure) (t : Txn)
    (h : m ∈ objectStoreNames t.db) : Untouched m t (upgradeStores version l t) := by
  induction l generalizing t with
  | nil => exact Untouched.refl m t
  | cons p rest ih =>
    obtain ⟨n, s⟩ := p
    unfold upgradeStores
    have h1 := upgradeStore_untouched m version n s t (Or.inl h)
    unfold Txn.andThen
    split
    · exact h1.trans (ih _ (h1.mem_names h))
    · exact h1

theorem deleteStores_untouched (m : String) (s : Structure) (hm : hasProperty s m = true)
    (n i : Nat) (t : Txn) : Untouched m t (deleteStores s n i t) := by
  induction n generalizing i t with
  | zero => exact Untouched.refl m t
  | succ n ih =>
    unfold deleteStores
    refine Untouched.andThen ?_ (ih (i + 1))
    split
    · exact Untouched.refl m t
    · next hx =>
      refine deleteObjectStore_untouched m t _ ?_
      intro e
      rw [e] at hx
      exact hx hm

theorem reconcile_untouched (m : String) (version : Nat) (s : Structure) (db : Database)
    (h1 : m ∈ objectStoreNames db) (h2 : hasProperty s m = true) :
    Untouched m ⟨db, [], none⟩ (reconcile version s db) := by
  unfold reconcile
  exact (upgradeStores_untouched m version s ⟨db, [], none⟩ h1).andThen
    fun u => deleteStores_untouched m s h2 _ 0 u

theorem putsOf_append (a b : List EngineCall) : putsOf (a ++ b) = putsOf a ++ putsOf b := by
  simp [putsOf, List.filterMap_append]

theorem Puts.nil (t : Txn) : Puts t t [] :=
  ⟨[], by simp, List.prefix_refl _, fun _ => rfl⟩

theorem Puts.of_calls {t t' : Txn} (cs : List EngineCall) (h : t'.calls = t.calls ++ cs) :
    Puts t t' (putsOf cs) :=
  ⟨putsOf cs, by rw [h, putsOf_append], List.prefix_refl _, fun _ => rfl⟩

theorem Puts.seq {t t1 : Txn} {f : Txn → Txn} {e1 e2 : List (String × Record)}
    (h1 : Puts t t1 e1) (h2 : ∀ u, Puts u (f u) e2) : Puts t (t1.andThen f) (e1 ++ e2) := by
  obtain ⟨p1, hc1, hp1, hr1⟩ := h1
  unfold Txn.andThen
  split
  · next hn =>
    obtain ⟨p2, hc2, hp2, hr2⟩ := h2 t1
    have he : p1 = e1 := hr1 hn
    subst he
    refine ⟨p1 ++ p2, ?_, ?_, ?_⟩
    · rw [hc2, hc1, List.append_assoc]
    · exact (List.prefix_append_right_inj p1).2 hp2
    · intro hr; rw [hr2 hr]
  · next e hn =>
    refine ⟨p1, hc1, hp1.trans (List.prefix_append e1 e2), ?_⟩
    intro hr
    rw [hn] at hr
    exact absurd hr (by simp)

theorem Puts.seq_nil {t t1 : Txn} {f : Txn → Txn} {e2 : List (String × Record)}
    (h1 : Puts t t1 []) (h2 : ∀ u, Puts u (f u) e2) : Puts t (t1.andThen f) e2 :=
  Puts.seq h1 h2

theorem Grows.same (n : String) (t : Txn) : Grows n t t := fun _ h => Or.inl h

theorem Grows.chain {n : String} {t t1 t2 : Txn} (h1 : Grows n t t1) (h2 : Grows n t1 t2) :
    Grows n t t2 := by
  intro m hm
  rcases h2 m hm with h | h
  · exact h1 m h
  · exact Or.inr h

theorem Grows.step {n : String} {t t1 : Txn} {f : Txn → Txn}
    (h1 : Grows n t t1) (h2 : ∀ u, Grows n u (f u)) : Grows n t (t1.andThen f) := by
  unfold Txn.andThen
  split
  · exact h1.chain (h2 t1)
  · exact h1

theorem Grows.of_names {n : String} {t t' : Txn}
    (h : objectStoreNames t'.db = objectStoreNames t.db) : Grows n t t' := by
  intro m hm
  rw [h] at hm
  exact Or.inl hm

theorem names_map_eq (f : ObjectStore → ObjectStore) (hf : ∀ st, (f st).name = st.name)
    (l : List ObjectStore) : (l.map f).map (fun s => s.name) = l.map (fun s => s.name) := by
  simp [List.map_map, Function.comp_def, hf]

theorem andThen_raised {t : Txn} {f : Txn → Txn} (h : (t.andThen f).raised = none) :
    t.raised = none ∧ t.andThen f = f t := by
  unfold Txn.andThen at h ⊢
  split at h
  · next hn => exact ⟨hn, by simp [hn]⟩
  · next e hn => rw [hn] at h; exact absurd h (by simp)

theorem put_puts (t : Txn) (n : String) (v : Record) : Puts t (put t n v) [(n, v)] := by
  have h : (put t n v).calls = t.calls ++ [EngineCall.put n v] := by
    unfold put
    split
    · rfl
    · split <;> rfl
  exact Puts.of_calls _ h

theorem put_names (t : Txn) (n : String) (v : Record) :
    objectStoreNames (put t n v).db = objectStoreNames t.db := by
  unfold put
  split
  · rfl
  · split
    · rfl
    · unfold objectStoreNames
      exact names_map_eq _ (fun st => by unfold ObjectStore.store; split <;> rfl) _

theorem putAll_puts (n : String) (vs : List Record) (t : Txn) :
    Puts t (putAll n vs t) (vs.map (fun v => (n, v))) := by
  induction vs generalizing t with
  | nil => exact Puts.nil t
  | cons v vs ih => exact (put_puts t n v).seq ih

theorem putAll_grows (m n : String) (vs : List Record) (t : Txn) : Grows m t (putAll n vs t) := by
  induction vs generalizing t with
  | nil => exact Grows.same m t
  | cons v vs ih => exact (Grows.of_names (put_names t n v)).step ih

theorem createIndex_names (t : Txn) (n : String) (i : IndexSpec) :
    objectStoreNames (createIndex t n i).db = objectStoreNames t.db := by
  unfold createIndex
  split
  · rfl
  · unfold objectStoreNames
    exact names_map_eq _ (fun st => by split <;> rfl) _

theorem createIndex_puts (t : Txn) (n : String) (i : IndexSpec) :
    Puts t (createIndex t n i) [] := by
  have h : (createIndex t n i).calls = t.calls ++ [EngineCall.createIndex n i] := by
    unfold createIndex
    split <;> rfl
  exact Puts.of_calls _ h

theorem createIndexes_puts (n : String) (is : List IndexSpec) (t : Txn) :
    Puts t (createIndexes n is t) [] := by
  induction is generalizing t with
  | nil => exact Puts.nil t
  | cons i is ih =>
    unfold createIndexes
    refine Puts.seq_nil ?_ ih
    split
    · exact Puts.nil t
    · exact createIndex_puts t n i

theorem createIndexes_grows (m n : String) (is : List IndexSpec) (t : Txn) :
    Grows m t (createIndexes n is t) := by
  induction is generalizing t with
  | nil => exact Grows.same m t
  | cons i is ih =>
    unfold createIndexes
    refine Grows.step ?_ ih
    split
    · exact Grows.same m t
    · exact Grows.of_names (createIndex_names t n i)

theorem objectStore_calls (t : Txn) (n : String) :
    (objectStore t n).calls = t.calls ∧ (objectStore t n).db = t.db := by
  unfold objectStore
  split <;> exact ⟨rfl, rfl⟩

theorem upgradeStore_indexes_puts (n : String) (s : StoreSchema) (t : Txn) :
    Puts t
      (if s.indexes ≠ Indexes.undefined then
        (objectStore t n).andThen fun t =>
          match s.indexes with
          | .array indexes => createIndexes n indexes t
          | .object index =>
            if !(indexNames t.db n).contains index.name then createIndex t n index
            else t
          | _ => t
      else t) [] := by
  split
  · refine Puts.seq_nil ?_ fun u => ?_
    · exact ⟨[], by rw [(objectStore_calls t n).1]; simp, List.prefix_refl _, fun _ => rfl⟩
    · split
      · exact createIndexes_puts n _ u
      · split
        · exact createIndex_puts u n _
        · exact Puts.nil u
      · exact Puts.nil u
  · exact Puts.nil t

theorem upgradeStore_indexes_grows (m n : String) (s : StoreSchema) (t : Txn) :
    Grows m t
      (if s.indexes ≠ Indexes.undefined then
        (objectStore t n).andThen fun t =>
          match s.indexes with
          | .array indexes => createIndexes n indexes t
          | .object index =>
            if !(indexNames t.db n).contains index.name then createIndex t n index
            else t
          | _ => t
      else t) := by
  split
  · refine Grows.step ?_ fun u => ?_
    · exact Grows.of_names (by rw [(objectStore_calls t n).2])
    · split
      · exact createIndexes_grows m n _ u
      · split
        · exact Grows.of_names (createIndex_names u n _)
        · exact Grows.same m u
      · exact Grows.same m u
  · exact Grows.same m t

theorem createObjectStore_puts (t : Txn) (n : String) (o : Option StoreOptions) :
    Puts t (createObjectStore t n o) [] := by
  have h : (createObjectStore t n o).calls = t.calls ++ [EngineCall.createObjectStore n o] := by
    unfold createObjectStore
    split
    · rfl
    · split <;> rfl
  exact Puts.of_calls _ h

theorem createObjectStore_grows (t : Txn) (n : String) (o : Option StoreOptions) :
    Grows n t (createObjectStore t n o) := by
  unfold createObjectStore
  split
  · exact Grows.same n _
  · split
    · exact Grows.same n _
    · intro m hm
      obtain ⟨st, hst, hn⟩ := (mem_names_iff _ _).1 hm
      rcases (mem_insertStore _ _ _).1 hst with h | h
      · right; rw [← hn, h]
      · left; exact (mem_names_iff _ _).2 ⟨st, h, hn⟩

theorem createObjectStore_mem (t : Txn) (n : String) (o : Option StoreOptions)
    (hr : (createObjectStore t n o).raised = none) :
    n ∈ objectStoreNames (createObjectStore t n o).db := by
  unfold createObjectStore at hr ⊢
  split
  · next hc => simpa using hc
  · split
    · next h1 h2 => rw [if_neg h1, if_pos h2] at hr; exact absurd hr (by simp)
    · exact (mem_names_iff _ _).2 ⟨_, (mem_insertStore _ _ _).2 (Or.inl rfl), rfl⟩

theorem upgradeStore_seeds_puts (version : Nat) (n : String) (s : StoreSchema) (t : Txn) :
    Puts t
      (if s.defaultValues ≠ DefaultValues.undefined && version = 1 then
        match s.defaultValues with
        | .array values => putAll n values t
        | .object value => put t n value
        | _ => t
      else t)
      (if version = 1 then (seedRecords s).map (fun v => (n, v)) else []) := by
  by_cases hv : version = 1
  · rw [if_pos hv]
    cases hd : s.defaultValues with
    | undefined => simpa [seedRecords, hd] using Puts.nil t
    | array values => simpa [seedRecords, hd, hv] using putAll_puts n values t
    | object value => simpa [seedRecords, hd, hv] using put_puts t n value
    | other => simpa [seedRecords, hd] using Puts.nil t
  · simpa [hv] using Puts.nil t

theorem upgradeStore_seeds_grows (m : String) (version : Nat) (n : String) (s : StoreSchema)
    (t : Txn) :
    Grows m t
      (if s.defaultValues ≠ DefaultValues.undefined && version = 1 then
        match s.defaultValues with
        | .array values => putAll n values t
        | .object value => put t n value
        | _ => t
      else t) := by
  split
  · split
    · exact putAll_grows m n _ t
    · exact Grows.of_names (put_names t n _)
    · exact Grows.same m t
  · exact Grows.same m t

theorem Puts.append {t t1 t2 : Txn} {e1 e2 : List (String × Record)} (h1 : Puts t t1 e1)
    (hr : t1.raised = none) (h2 : Puts t1 t2 e2) : Puts t t2 (e1 ++ e2) := by
  obtain ⟨p1, hc1, _, hr1⟩ := h1
  obtain ⟨p2, hc2, hp2, hr2⟩ := h2
  have he : p1 = e1 := hr1 hr
  subst he
  refine ⟨p1 ++ p2, ?_, ?_, ?_⟩
  · rw [hc2, hc1, List.append_assoc]
  · exact (List.prefix_append_right_inj p1).2 hp2
  · intro h; rw [hr2 h]

theorem Puts.raised {t t1 : Txn} {e1 : List (String × Record)} (h1 : Puts t t1 e1)
    (e2 : List (String × Record)) (hr : t1.raised ≠ none) : Puts t t1 (e1 ++ e2) := by
  obtain ⟨p1, hc1, hp1, _⟩ := h1
  exact ⟨p1, hc1, hp1.trans (List.prefix_append e1 e2), fun h => absurd h hr⟩

theorem putAll_names (n : String) (vs : List Record) (t : Txn) :
    objectStoreNames (putAll n vs t).db = objectStoreNames t.db := by
  induction vs generalizing t with
  | nil => rfl
  | cons v vs ih =>
    unfold putAll Txn.andThen
    split
    · exact (ih _).trans (put_names t n v)
    · exact put_names t n v

theorem upgradeStore_seeds_names (version : Nat) (n : String) (s : StoreSchema) (t : Txn) :
    objectStoreNames
      (if s.defaultValues ≠ DefaultValues.undefined && version = 1 then
        match s.defaultValues with
        | .array values => putAll n values t
        | .object value => put t n value
        | _ => t
      else t).db = objectStoreNames t.db := by
  split
  · split
    · exact putAll_names n _ t
    · exact put_names t n _
    · rfl
  · rfl

theorem upgradeStore_puts (version : Nat) (n : String) (s : StoreSchema) (t : Txn) :
    Puts t (upgradeStore version n s t)
      (if n ∉ objectStoreNames t.db ∧ version = 1 then
        (seedRecords s).map (fun v => (n, v)) else []) := by
  unfold upgradeStore
  by_cases hc : n ∈ objectStoreNames t.db
  · have hc1 : (objectStoreNames t.db).contains n = true := by simpa using hc
    simp only [hc1, Bool.not_true, Bool.false_eq_true, if_false]
    have h := Puts.seq (Puts.nil t) (upgradeStore_indexes_puts n s)
    simpa [hc] using h
  · have hc1 : (objectStoreNames t.db).contains n = false := by simpa using hc
    simp only [hc1, Bool.not_false, if_true]
    have h := ((createObjectStore_puts t n s.options).seq
      (upgradeStore_seeds_puts version n s)).seq (upgradeStore_indexes_puts n s)
    simpa [hc] using h

theorem upgradeStore_grows (version : Nat) (n : String) (s : StoreSchema) (t : Txn) :
    Grows n t (upgradeStore version n s t) := by
  unfold upgradeStore
  refine Grows.step ?_ (upgradeStore_indexes_grows n n s)
  split
  · exact (createObjectStore_grows t n s.options).step
      (upgradeStore_seeds_grows n version n s)
  · exact Grows.same n t

theorem upgradeStore_mem (version : Nat) (n : String) (s : StoreSchema) (t : Txn)
    (hr : (upgradeStore version n s t).raised = none) :
    n ∈ objectStoreNames (upgradeStore version n s t).db := by
  by_cases hc : n ∈ objectStoreNames t.db
  · exact (upgradeStore_untouched n version n s t (Or.inl hc)).mem_names hc
  · have hc1 : (objectStoreNames t.db).contains n = false := by simpa using hc
    unfold upgradeStore at hr ⊢
    simp only [hc1, Bool.not_false, if_true] at hr ⊢
    obtain ⟨h1, e1⟩ := andThen_raised hr
    rw [e1]
    obtain ⟨h2, e2⟩ := andThen_raised h1
    rw [e2]
    refine (upgradeStore_indexes_untouched n n s _).mem_names ?_
    rw [upgradeStore_seeds_names]
    exact createObjectStore_mem t n s.options h2

theorem upgradeStores_mem (version : Nat) (l : Structure) (t : Txn)
    (hr : (upgradeStores version l t).raised = none) :
    ∀ p ∈ l, p.1 ∈ objectStoreNames (upgradeStores version l t).db := by
  induction l generalizing t with
  | nil => intro p hp; simp at hp
  | cons q rest ih =>
    obtain ⟨n, s⟩ := q
    unfold upgradeStores at hr ⊢
    obtain ⟨h1, e1⟩ := andThen_raised hr
    rw [e1] at hr ⊢
    intro p hp
    rcases List.mem_cons.1 hp with h | h
    · rw [h]
      exact (upgradeStores_untouched n version rest _
        (upgradeStore_mem version n s t h1)).mem_names (upgradeStore_mem version n s t h1)
    · exact ih _ hr p h

theorem seedSequence_congr (version : Nat) (l : Structure) (db db' : Database)
    (h : ∀ p ∈ l, (p.1 ∈ objectStoreNames db' ↔ p.1 ∈ objectStoreNames db)) :
    seedSequence version l db' = seedSequence version l db := by
  unfold seedSequence
  congr 1
  apply List.map_congr_left
  intro p hp
  simp only [h p hp]

theorem upgradeStores_puts (version : Nat) (l : Structure) (t : Txn)
    (hl : (l.map Prod.fst).Nodup) :
    Puts t (upgradeStores version l t) (seedSequence version l t.db) := by
  induction l generalizing t with
  | nil => exact Puts.nil t
  | cons q rest ih =>
    obtain ⟨n, s⟩ := q
    simp only [List.map_cons, List.nodup_cons] at hl
    have h1 := upgradeStore_puts version n s t
    have hseq : seedSequence version ((n, s) :: rest) t.db =
        (if n ∉ objectStoreNames t.db ∧ version = 1 then
          (seedRecords s).map (fun v => (n, v)) else []) ++
        seedSequence version rest t.db := by
      simp [seedSequence]
    rw [hseq]
    unfold upgradeStores Txn.andThen
    split
    · next hn =>
      have h2 := ih (upgradeStore version n s t) hl.2
      rw [seedSequence_congr version rest t.db (upgradeStore version n s t).db ?_] at h2
      · exact h1.append hn h2
      · intro p hp
        have hpn : p.1 ≠ n := fun e => hl.1 (e ▸ List.mem_map_of_mem Prod.fst hp)
        constructor
        · intro hm
          rcases upgradeStore_grows version n s t p.1 hm with h | h
          · exact h
          · exact absurd h hpn
        · intro hm
          exact (upgradeStore_untouched p.1 version n s t (Or.inl hm)).mem_names hm
    · next e hn =>
      exact h1.raised _ (by rw [hn]; simp)

theorem deleteObjectStore_puts (t : Txn) (x : String) :
    putsOf (deleteObjectStore t x).calls = putsOf t.calls := by
  unfold deleteObjectStore
  split <;> simp only [putsOf_append] <;> simp [putsOf]

theorem deleteStores_puts (s : Structure) (n i : Nat) (t : Txn) :
    putsOf (deleteStores s n i t).calls = putsOf t.calls := by
  induction n generalizing i t with
  | zero => rfl
  | succ n ih =>
    unfold deleteStores
    split
    · unfold Txn.andThen
      split
      · exact ih _ _
      · rfl
    · unfold Txn.andThen
      split
      · exact (ih _ _).trans (deleteObjectStore_puts t _)
      · exact deleteObjectStore_puts t _

theorem reconcile_puts (version : Nat) (s : Structure) (db : Database) :
    putsOf (reconcile version s db).calls =
      putsOf (upgradeStores version s ⟨db, [], none⟩).calls := by
  unfold reconcile Txn.andThen
  split
  · exact deleteStores_puts _ _ _ _
  · rfl

theorem dbUpgrade_calls (self : Connection) (event : Event) (chrome : Bool) :
    (dbUpgrade self event chrome).calls =
      (reconcile self.version self.structure_ event.db).calls := by
  unfold dbUpgrade
  split
  · next h => rw [h]
  · next h =>
    rw [h]
    split
    · split <;> rfl
    · rfl

theorem dbUpgrade_db (self : Connection) (event : Event) (chrome : Bool) :
    (dbUpgrade self event chrome).self.db =
      some (reconcile self.version self.structure_ event.db).db := by
  unfold dbUpgrade
  split
  · next h => rw [h]
  · next h =>
    rw [h]
    split
    · split <;> rfl
    · rfl

theorem dbUpgrade_raised (self : Connection) (event : Event) (chrome : Bool)
    (h : (dbUpgrade self event chrome).raised = none) :
    (reconcile self.version self.structure_ event.db).raised = none := by
  unfold dbUpgrade at h
  split at h
  · simp at h
  · next h1 => rw [h1]

theorem hasProperty_of_mem (l : Structure) (n : String) (s : StoreSchema)
    (h : (n, s) ∈ l) : hasProperty l n = true := by
  have : (l.lookup n).isSome = true := by
    induction l with
    | nil => simp at h
    | cons p rest ih =>
      obtain ⟨k, v⟩ := p
      by_cases hk : n = k
      · subst hk; simp [List.lookup]
      · have hne : (n == k) = false := by simpa using hk
        simp only [List.lookup, hne]
        rcases List.mem_cons.1 h with h | h
        · exact absurd (congrArg Prod.fst h) hk
        · exact ih h
  simp [hasProperty, this]

/-! ## Seeding and preservation of stores -/

/-- C3 fails as stated: `tasks` is declared with the seed records `taskA` and `taskB`
and without options, the database does not hold it, and the version is 1. The store is
created without key path or key generator, so the engine's `put` raises `DataError` on
`taskA`; the exception leaves `dbUpgrade`, `taskB` is never put and the store holds no
record. -/
theorem dbUpgrade_seed_put_raises :
    ("tasks", keylessSchema) ∈ keylessConnection.structure_ ∧
    seedRecords keylessSchema = [taskA, taskB] ∧
    "tasks" ∉ objectStoreNames firstEvent.db ∧
    keylessConnection.version = 1 ∧
    (dbUpgrade keylessConnection firstEvent false).raised = some JSError.DataError ∧
    (dbUpgrade keylessConnection firstEvent false).calls =
      [EngineCall.createObjectStore "tasks" none, EngineCall.put "tasks" taskA] ∧
    (dbUpgrade keylessConnection firstEvent false).self.db =
      some ⟨1, [⟨"tasks", none, [], [], 1⟩], false⟩ := by
  decide

/-- C3, amended: the `put` calls of a reconciliation pass are an initial segment of the
seed sequence, which lists, store by store in the order of the structure and record by
record in the order of `defaultValues`, the seed records of the declared stores that
the database did not hold when the pass started, provided the version of the connection
is 1; a single record object counts as a one-element sequence. When no call of the
creation loop raises, the `put` calls are the whole sequence: every such record is put
exactly once, in order. So a seed record is put only for a store that is declared, was
absent, at version 1; a pass at another version puts nothing, and nothing is put into
a store that already exists. -/
theorem dbUpgrade_seeds (self : Connection) (event : Event) (chrome : Bool)
    (hs : (self.structure_.map Prod.fst).Nodup) :
    putsOf (dbUpgrade self event chrome).calls <+:
      seedSequence self.version self.structure_ event.db ∧
    ((upgradeStores self.version self.structure_ ⟨event.db, [], none⟩).raised = none →
      putsOf (dbUpgrade self event chrome).calls =
        seedSequence self.version self.structure_ event.db) ∧
    (∀ name v, (name, v) ∈ seedSequence self.version self.structure_ event.db ↔
      ∃ s, (name, s) ∈ self.structure_ ∧ v ∈ seedRecords s ∧
        name ∉ objectStoreNames event.db ∧ self.version = 1) ∧
    (∀ name v, (name, v) ∈ putsOf (dbUpgrade self event chrome).calls →
      ∃ s, (name, s) ∈ self.structure_ ∧ v ∈ seedRecords s ∧
        name ∉ objectStoreNames event.db ∧ self.version = 1) ∧
    (self.version ≠ 1 → putsOf (dbUpgrade self event chrome).calls = []) ∧
    (∀ name v, name ∈ objectStoreNames event.db →
      (name, v) ∉ putsOf (dbUpgrade self event chrome).calls) := by
  obtain ⟨pre, hc, hp, hr⟩ :=
    upgradeStores_puts self.version self.structure_ ⟨event.db, [], none⟩ hs
  have hcalls : putsOf (dbUpgrade self event chrome).calls = pre := by
    rw [dbUpgrade_calls, reconcile_puts, hc]
    rfl
  have hiff : ∀ name v, (name, v) ∈ seedSequence self.version self.structure_ event.db ↔
      ∃ s, (name, s) ∈ self.structure_ ∧ v ∈ seedRecords s ∧
        name ∉ objectStoreNames event.db ∧ self.version = 1 := by
    intro name v
    unfold seedSequence
    simp only [List.mem_flatten, List.mem_map]
    constructor
    · rintro ⟨l, ⟨⟨n, s⟩, hp, rfl⟩, hl⟩
      split at hl
      · next hc =>
        obtain ⟨w, hw, he⟩ := List.mem_map.1 hl
        simp only [Prod.mk.injEq] at he
        obtain ⟨rfl, rfl⟩ := he
        exact ⟨s, hp, hw, hc.1, hc.2⟩
      · simp at hl
    · rintro ⟨s, hp, hv, hn, h1⟩
      refine ⟨_, ⟨(name, s), hp, rfl⟩, ?_⟩
      rw [if_pos ⟨hn, h1⟩]
      exact List.mem_map.2 ⟨v, hv, rfl⟩
  have hmem : ∀ name v, (name, v) ∈ putsOf (dbUpgrade self event chrome).calls →
      ∃ s, (name, s) ∈ self.structure_ ∧ v ∈ seedRecords s ∧
        name ∉ objectStoreNames event.db ∧ self.version = 1 := by
    intro name v hm
    rw [hcalls] at hm
    exact (hiff name v).1 (hp.subset hm)
  refine ⟨hcalls ▸ hp, fun h => hcalls.trans (hr h), hiff, hmem, ?_, ?_⟩
  · intro hv
    apply List.eq_nil_iff_forall_not_mem.2
    rintro ⟨name, v⟩ hm
    obtain ⟨_, _, _, _, h1⟩ := hmem name v hm
    exact hv h1
  · intro name v hn hm
    obtain ⟨_, _, _, h0, _⟩ := hmem name v hm
    exact h0 hn

/-- The statement of `dbUpgrade_seeds` for a first open at version 1 of a structure
declaring `notes` with one seed record, on an empty database. -/
theorem dbUpgrade_seeds_witness :
    (freshConnection.structure_.map Prod.fst).Nodup ∧
    (upgradeStores freshConnection.version freshConnection.structure_
      ⟨firstEvent.db, [], none⟩).raised = none ∧
    putsOf (dbUpgrade freshConnection firstEvent false).calls = [("notes", noteHi)] :=
  ⟨by decide, by decide,
    ((dbUpgrade_seeds freshConnection firstEvent false (by decide)).2.1 (by decide)).trans
      (by decide)⟩

/-- C2: when `dbUpgrade` completes, every store the structure declares is in the
database, and every store that was in the database before and is declared is still
there with the records it had: the pass issued no call that creates it, deletes it or
changes its records. -/
theorem dbUpgrade_declared_stores (self : Connection) (event : Event) (chrome : Bool)
    (h : (dbUpgrade self event chrome).raised = none) :
    ∃ db, (dbUpgrade self event chrome).self.db = some db ∧
      (∀ name s, (name, s) ∈ self.structure_ → name ∈ objectStoreNames db) ∧
      (∀ st ∈ event.db.stores, (∃ s, (st.name, s) ∈ self.structure_) →
        (∃ st' ∈ db.stores, st.sameRecords st') ∧
        ∀ c ∈ (dbUpgrade self event chrome).calls, c.touches st.name = false) := by
  refine ⟨_, dbUpgrade_db self event chrome, ?_, ?_⟩
  · intro name s hm
    have hr := dbUpgrade_raised self event chrome h
    unfold reconcile at hr ⊢
    obtain ⟨h1, e1⟩ := andThen_raised hr
    rw [e1]
    refine (deleteStores_untouched name self.structure_
      (hasProperty_of_mem _ _ _ hm) _ 0 _).mem_names ?_
    exact upgradeStores_mem self.version self.structure_ _ h1 (name, s) hm
  · rintro st hst ⟨s, hs⟩
    obtain ⟨h1, cs, h2, h3⟩ := reconcile_untouched st.name self.version self.structure_
      event.db ((mem_names_iff _ _).2 ⟨st, hst, rfl⟩) (hasProperty_of_mem _ _ _ hs)
    refine ⟨h1 st hst rfl, ?_⟩
    rw [dbUpgrade_calls, h2]
    simpa using h3

/-- The statement of `dbUpgrade_declared_stores` for a pass at version 2 that finds the
declared store `notes` with its record and has the declared store `tasks` to create. -/
theorem dbUpgrade_declared_stores_witness :
    (dbUpgrade tasksConnection tasksEvent false).raised = none ∧
    ∃ db, (dbUpgrade tasksConnection tasksEvent false).self.db = some db ∧
      (∀ name s, (name, s) ∈ tasksConnection.structure_ → name ∈ objectStoreNames db) ∧
      (∀ st ∈ tasksEvent.db.stores, (∃ s, (st.name, s) ∈ tasksConnection.structure_) →
        (∃ st' ∈ db.stores, st.sameRecords st') ∧
        ∀ c ∈ (dbUpgrade tasksConnection tasksEvent false).calls,
          c.touches st.name = false) :=
  ⟨by decide, dbUpgrade_declared_stores tasksConnection tasksEvent false (by decide)⟩

end IndexedDBjs
